import Mathlib

/-!
Shallow embedding of the FXT writer library (fxt-cpp).

The model translates `src/src/writer.cpp` (both the free-function variant and
the `Writer::`-method variant where they differ), together with the bit-field
layouts of `fields.h` (appended to `src/src/event_args.cpp`) and the argument
structures of `include/fxt/record_args.h`.

Modelling conventions:
* Bytes are `Nat` values; the caller-supplied byte sink is a function
  `e : Nat -> Int` giving the return code of the n-th sink call (0 = success),
  and the writer state records the bytes delivered by successful calls.
* The external XXH3 hash (third-party `xxhash.h`, not part of this repository)
  is an abstract parameter `hash : List Nat -> Nat` respectively
  `hashTh : Nat -> Nat -> Nat`.
* 64-bit words are emitted in little-endian byte order exactly as
  `WriteUInt64ToStream` does.
* The C++ packs header fields with bitwise-or of `Field<lo,hi>::Make` values
  whose bit ranges are pairwise disjoint; on disjoint ranges bitwise-or
  coincides with addition, which is how headers are assembled here.
-/

set_option maxRecDepth 100000
set_option maxHeartbeats 2000000

namespace FxtModel

/-- Bit-field helper mirroring `Field<lo, hi>::Make` from fields.h:
`(value & kMask) << lo` with `kMask = 2^(hi-lo+1) - 1`. -/
def fieldMake (lo hi v : Nat) : Nat := v % 2 ^ (hi - lo + 1) * 2 ^ lo

/-- Bit-field helper mirroring `Field<lo, hi>::Get`: `(word >> lo) & kMask`. -/
def fieldGet (lo hi w : Nat) : Nat := w / 2 ^ lo % 2 ^ (hi - lo + 1)

/-- 8-byte alignment mirroring `(len + 8 - 1) & (-8)` from writer.cpp
(no overflow occurs for the sizes the library handles). -/
def pad8 (n : Nat) : Nat := (n + 7) / 8 * 8

/-- Little-endian byte decomposition of a 64-bit word, mirroring
`WriteUInt64ToStream`: byte i is `uint8_t(val >> (8*i))`. -/
def le64 (w : Nat) : List Nat :=
  [w % 256, w / 2 ^ 8 % 256, w / 2 ^ 16 % 256, w / 2 ^ 24 % 256,
   w / 2 ^ 32 % 256, w / 2 ^ 40 % 256, w / 2 ^ 48 % 256, w / 2 ^ 56 % 256]

/-- Recompose a 64-bit word from its little-endian bytes (used to decode
emitted headers in theorem statements). -/
def wordOfBytes (l : List Nat) : Nat :=
  l.getD 0 0 + l.getD 1 0 * 2 ^ 8 + l.getD 2 0 * 2 ^ 16 + l.getD 3 0 * 2 ^ 24 +
  l.getD 4 0 * 2 ^ 32 + l.getD 5 0 * 2 ^ 40 + l.getD 6 0 * 2 ^ 48 + l.getD 7 0 * 2 ^ 56

-- Error codes from err.h
def FXT_ERR_WRITE_TO_STREAM_FAILED : Int := -3000
def FXT_ERR_STR_TOO_LONG : Int := -3001
def FXT_ERR_WRITE_LENGTH_MISMATCH : Int := -3002
def FXT_ERR_DATA_TOO_LONG : Int := -3003
def FXT_ERR_INVALID_OUTGOING_THREAD_STATE : Int := -3004
def FXT_ERR_RECORD_SIZE_TOO_LARGE : Int := -3005
def FXT_ERR_INVALID_ARG_TYPE : Int := -3006
def FXT_ERR_ARG_NAME_TOO_LONG : Int := -3007
def FXT_ERR_ARG_STR_VALUE_TOO_LONG : Int := -3008

/-- Modelled from the spec: `FXT_ERR_TOO_MANY_ARGS` is used by writer.cpp but
its numeric define is not among the provided sources; the error codes of err.h
are consecutive from -3000, and the spec lists TooManyArgs as the next error.
Only the facts that it is nonzero and distinct from the other codes matter. -/
def FXT_ERR_TOO_MANY_ARGS : Int := -3009

/-- Writer state, mirroring `struct Writer` of include/fxt/writer.h:
a 512-entry string-hash table, a 128-entry thread-hash table and the two
`uint16_t` next-index counters.  In addition the model tracks the bytes the
sink has received (`out`) and the number of sink calls made (`calls`),
which in C++ live behind the caller-supplied `writeFunc`.

The C++ tables are uninitialized memory; they are modelled as zeros, which is
sound because the probe loops only visit slots below the next-index counter,
i.e. slots that have been written. -/
structure WState where
  stringTable : List Nat
  nextStringIndex : Nat
  threadTable : List Nat
  nextThreadIndex : Nat
  out : List Nat
  calls : Nat
deriving DecidableEq

/-- A freshly constructed writer. -/
def mkWriter : WState :=
  { stringTable := List.replicate 512 0
    nextStringIndex := 0
    threadTable := List.replicate 128 0
    nextThreadIndex := 0
    out := []
    calls := 0 }

/-- One call to the caller-supplied sink (`writer->writeFunc`): the sink
policy `e` gives the return code of the n-th call; on success the bytes are
appended to the received stream. -/
def sinkWrite (e : Nat → Int) (s : WState) (bytes : List Nat) : Int × WState :=
  if e s.calls = 0 then (0, { s with out := s.out ++ bytes, calls := s.calls + 1 })
  else (e s.calls, { s with calls := s.calls + 1 })

/-- `WriteUInt64ToStream`: one sink call delivering the 8 little-endian bytes. -/
def writeUInt64ToStream (e : Nat → Int) (s : WState) (v : Nat) : Int × WState :=
  sinkWrite e s (le64 v)

/-- `WriteBytesToStream`: one sink call delivering the bytes verbatim. -/
def writeBytesToStream (e : Nat → Int) (s : WState) (bytes : List Nat) : Int × WState :=
  sinkWrite e s bytes

/-- `WriteZeroPadding`: `count` sink calls of one zero byte each, aborting on
the first failure. -/
def writeZeroPadding (e : Nat → Int) (s : WState) : Nat → Int × WState
  | 0 => (0, s)
  | n + 1 =>
    let (r, s1) := sinkWrite e s [0]
    if r ≠ 0 then (r, s1) else writeZeroPadding e s1 n

/-- The always-succeeding sink. -/
def eOK : Nat → Int := fun _ => 0

/-- `WriteMagicNumberRecord` hard-codes these 8 bytes. -/
def fxtMagicBytes : List Nat := [0x10, 0x00, 0x04, 0x46, 0x78, 0x54, 0x16, 0x00]

/-- `WriteMagicNumberRecord` (writer.cpp line 40): a single
`WriteBytesToStream` of the hard-coded magic bytes. -/
def WriteMagicNumberRecord (e : Nat → Int) (s : WState) : Int × WState :=
  writeBytesToStream e s fxtMagicBytes

/-- Header of `AddProviderEventRecord` (free-function variant, writer.cpp
line 99): Type=Metadata(0), RecordSize=1, MetadataType=ProviderEvent(3),
ProviderID [20..51], Event [52..55]. -/
def providerEventHeader (providerID eventType : Nat) : Nat :=
  fieldMake 0 3 0 + fieldMake 4 15 1 + fieldMake 16 19 3 +
  fieldMake 20 51 providerID + fieldMake 52 55 eventType

/-- `AddProviderEventRecord` (free-function variant). -/
def AddProviderEventRecord (e : Nat → Int) (s : WState) (providerID eventType : Nat) :
    Int × WState :=
  writeUInt64ToStream e s (providerEventHeader providerID eventType)

/-- Header of `Writer::AddProviderEventRecord` (method variant, writer.cpp
line 1541): this variant passes `internal::MetadataType::ProviderSection`
(= 2) as the MetadataType instead of ProviderEvent (= 3). -/
def writerMethodProviderEventHeader (providerID eventType : Nat) : Nat :=
  fieldMake 0 3 0 + fieldMake 4 15 1 + fieldMake 16 19 2 +
  fieldMake 20 51 providerID + fieldMake 52 55 eventType

/-- `Writer::AddProviderEventRecord` (method variant). -/
def Writer_AddProviderEventRecord (e : Nat → Int) (s : WState) (providerID eventType : Nat) :
    Int × WState :=
  writeUInt64ToStream e s (writerMethodProviderEventHeader providerID eventType)

/-- Header of `AddProviderInfoRecord` (writer.cpp line 47): Type=Metadata(0),
MetadataType=ProviderInfo(1), ProviderID [20..51], NameLength [52..59]. -/
def providerInfoHeader (providerID strLen sizeInWords : Nat) : Nat :=
  fieldMake 0 3 0 + fieldMake 4 15 sizeInWords + fieldMake 16 19 1 +
  fieldMake 20 51 providerID + fieldMake 52 59 strLen

/-- `AddProviderInfoRecord` (writer.cpp line 47): rejects names whose padded
length reaches `kMaxNameLength` (0xff), then emits header, name bytes and
zero padding. -/
def AddProviderInfoRecord (e : Nat → Int) (s : WState) (providerID : Nat)
    (providerName : List Nat) : Int × WState :=
  let strLen := providerName.length
  let paddedStrLen := pad8 strLen
  let diff := paddedStrLen - strLen
  if 0xff ≤ paddedStrLen then (FXT_ERR_STR_TOO_LONG, s)
  else
    let sizeInWords := 1 + paddedStrLen / 8
    let (r1, s1) := writeUInt64ToStream e s (providerInfoHeader providerID strLen sizeInWords)
    if r1 ≠ 0 then (r1, s1)
    else
      let (r2, s2) := writeBytesToStream e s1 providerName
      if r2 ≠ 0 then (r2, s2)
      else if 0 < diff then writeZeroPadding e s2 diff
      else (0, s2)

/-- Header of `AddStringRecord` (writer.cpp line 131): Type=String(2),
StringIndex [16..30], StringLength [32..46]. -/
def stringRecordHeader (stringIndex strLen sizeInWords : Nat) : Nat :=
  fieldMake 0 3 2 + fieldMake 4 15 sizeInWords + fieldMake 16 30 stringIndex +
  fieldMake 32 46 strLen

/-- `AddStringRecord` (writer.cpp line 131): rejects strings whose padded
length reaches 0x7fff, then emits header, string bytes and zero padding. -/
def AddStringRecord (e : Nat → Int) (s : WState) (stringIndex : Nat) (str : List Nat) :
    Int × WState :=
  let strLen := str.length
  let paddedStrLen := pad8 strLen
  let diff := paddedStrLen - strLen
  if 0x7fff ≤ paddedStrLen then (FXT_ERR_STR_TOO_LONG, s)
  else
    let sizeInWords := 1 + paddedStrLen / 8
    let (r1, s1) := writeUInt64ToStream e s (stringRecordHeader stringIndex strLen sizeInWords)
    if r1 ≠ 0 then (r1, s1)
    else
      let (r2, s2) := writeBytesToStream e s1 str
      if r2 ≠ 0 then (r2, s2)
      else if 0 < diff then writeZeroPadding e s2 diff
      else (0, s2)

/-- The linear probe of the intern tables: first index whose stored hash
equals `h`, scanning the probed prefix of the table left to right. -/
def probe (h : Nat) : List Nat → Option Nat
  | [] => none
  | x :: xs => if x = h then some 0 else (probe h xs).map (· + 1)

/-- `GetOrCreateStringIndex` (writer.cpp line 167): probe the first
`min(nextStringIndex, 512)` slots for the content hash; on a hit return
`slot + 1`; on a miss emit a String record binding `slot + 1` (with
`slot = nextStringIndex % 512`), then store the hash and advance the
`uint16_t` counter.  Returns (code, state, handle); the handle is 0 when the
call fails (the C++ leaves the out-parameter unassigned then). -/
def GetOrCreateStringIndex (hash : List Nat → Nat) (e : Nat → Int) (s : WState)
    (str : List Nat) : Int × WState × Nat :=
  let h := hash str
  let maxProbe := min s.nextStringIndex 512
  match probe h (s.stringTable.take maxProbe) with
  | some i => (0, s, i + 1)
  | none =>
    let index := s.nextStringIndex % 512
    let (r, s1) := AddStringRecord e s (index + 1) str
    if r ≠ 0 then (r, s1, 0)
    else
      (0, { s1 with stringTable := s1.stringTable.set index h
                    nextStringIndex := (s.nextStringIndex + 1) % 65536 }, index + 1)

/-- Header of `AddThreadRecord` (writer.cpp line 204): Type=Thread(3),
RecordSize=3, ThreadIndex [16..23]. -/
def threadRecordHeader (threadIndex : Nat) : Nat :=
  fieldMake 0 3 3 + fieldMake 4 15 3 + fieldMake 16 23 threadIndex

/-- `AddThreadRecord` (writer.cpp line 204): header word, process-ID word,
thread-ID word. -/
def AddThreadRecord (e : Nat → Int) (s : WState) (threadIndex processID threadID : Nat) :
    Int × WState :=
  let (r1, s1) := writeUInt64ToStream e s (threadRecordHeader threadIndex)
  if r1 ≠ 0 then (r1, s1)
  else
    let (r2, s2) := writeUInt64ToStream e s1 processID
    if r2 ≠ 0 then (r2, s2)
    else writeUInt64ToStream e s2 threadID

/-- `GetOrCreateThreadIndex` (writer.cpp line 230): the thread analogue of
`GetOrCreateStringIndex` with capacity 128 and the hash taken over the
(processID, threadID) pair. -/
def GetOrCreateThreadIndex (hashTh : Nat → Nat → Nat) (e : Nat → Int) (s : WState)
    (processID threadID : Nat) : Int × WState × Nat :=
  let h := hashTh processID threadID
  let maxProbe := min s.nextThreadIndex 128
  match probe h (s.threadTable.take maxProbe) with
  | some i => (0, s, i + 1)
  | none =>
    let index := s.nextThreadIndex % 128
    let (r, s1) := AddThreadRecord e s (index + 1) processID threadID
    if r ≠ 0 then (r, s1, 0)
    else
      (0, { s1 with threadTable := s1.threadTable.set index h
                    nextThreadIndex := (s.nextThreadIndex + 1) % 65536 }, index + 1)

/-- Argument values, mirroring `RecordArgumentValue` of
include/fxt/record_args.h: a tag-discriminated union over the ten
`internal::ArgumentType` kinds.  `int32`/`int64` carry mathematical integers
(the C++ stores two's-complement machine words; the encoders below truncate
with the appropriate modulus).  `double` carries the raw IEEE-754 bit
pattern, which is all the writer ever inspects.  `strVal` carries the bytes
plus the `useStringTable` and `hexEncode` flags. -/
inductive ArgValue where
  | null
  | int32 (v : Int)
  | uint32 (v : Nat)
  | int64 (v : Int)
  | uint64 (v : Nat)
  | double (bits : Nat)
  | strVal (bytes : List Nat) (useStringTable : Bool) (hexEncode : Bool)
  | pointer (v : Nat)
  | koid (v : Nat)
  | boolVal (b : Bool)
deriving DecidableEq

/-- The `internal::ArgumentType` tag of a value. -/
def ArgValue.tag : ArgValue → Nat
  | .null => 0
  | .int32 _ => 1
  | .uint32 _ => 2
  | .int64 _ => 3
  | .uint64 _ => 4
  | .double _ => 5
  | .strVal _ _ _ => 6
  | .pointer _ => 7
  | .koid _ => 8
  | .boolVal _ => 9

/-- `RecordArgumentName`: the name bytes and the `useStringTable` flag
(`nameLen` is the length of the byte list). -/
structure ArgName where
  name : List Nat
  useStringTable : Bool
deriving DecidableEq

/-- `RecordArgument`: a name/value pair. -/
structure RecordArgument where
  name : ArgName
  value : ArgValue
deriving DecidableEq

/-- `ProcessedRecordArgument` of src/src/record_args.h. -/
structure ProcessedArg where
  nameStringRef : Nat
  nameSizeInWords : Nat
  valueStringRef : Nat
  headerAndValueSizeInWords : Nat
deriving DecidableEq

/-- `StringRefFields::Inline`: `0x8000 | (uint16_t)strLen`. -/
def inlineRef (strLen : Nat) : Nat := 0x8000 ||| strLen % 65536

/-- `StringRefFields::MaxInlineStrLen` = 0x7fff. -/
def MaxInlineStrLen : Nat := 0x7fff

/-- Two's-complement truncation of an `int32_t` converted to `uint64_t` and
masked to 32 bits (the value bits packed by `Int32ArgumentFields::Value`). -/
def bits32 (v : Int) : Nat := (v % (2 ^ 32 : Int)).toNat

/-- Two's-complement truncation of an `int64_t` cast to `uint64_t`. -/
def bits64 (v : Int) : Nat := (v % (2 ^ 64 : Int)).toNat

/-- Name half of `ProcessArgs` (writer.cpp line 269): interned names resolve
through the string table with name-size 0; inline names are length-checked
against `MaxInlineStrLen` and sized as `pad8(nameLen) / 8` words.
Returns (code, state, nameStringRef, nameSizeInWords). -/
def processName (hash : List Nat → Nat) (e : Nat → Int) (s : WState) (n : ArgName) :
    Int × WState × Nat × Nat :=
  if n.useStringTable then
    let (r, s1, idx) := GetOrCreateStringIndex hash e s n.name
    if r ≠ 0 then (r, s1, 0, 0) else (0, s1, idx, 0)
  else
    if MaxInlineStrLen < n.name.length then (FXT_ERR_ARG_NAME_TOO_LONG, s, 0, 0)
    else (0, s, inlineRef n.name.length, pad8 n.name.length / 8)

/-- Value half of `ProcessArgs` (writer.cpp line 288): computes
`headerAndValueSizeInWords` (and `valueStringRef` for string values).
Returns (code, state, valueStringRef, headerAndValueSizeInWords). -/
def processValue (hash : List Nat → Nat) (e : Nat → Int) (s : WState) (v : ArgValue) :
    Int × WState × Nat × Nat :=
  match v with
  | .null => (0, s, 0, 1)
  | .int32 _ => (0, s, 0, 1)
  | .uint32 _ => (0, s, 0, 1)
  | .int64 _ => (0, s, 0, 2)
  | .uint64 _ => (0, s, 0, 2)
  | .double _ => (0, s, 0, 2)
  | .strVal bytes useStringTable hexEncode =>
    if hexEncode then
      let encodedLen := bytes.length * 2
      if MaxInlineStrLen < encodedLen then (FXT_ERR_ARG_STR_VALUE_TOO_LONG, s, 0, 0)
      else (0, s, inlineRef encodedLen, 1 + pad8 encodedLen / 8)
    else
      if useStringTable then
        let (r, s1, idx) := GetOrCreateStringIndex hash e s bytes
        if r ≠ 0 then (r, s1, 0, 0) else (0, s1, idx, 1)
      else
        if MaxInlineStrLen < bytes.length then (FXT_ERR_ARG_STR_VALUE_TOO_LONG, s, 0, 0)
        else (0, s, inlineRef bytes.length, 1 + pad8 bytes.length / 8)
  | .pointer _ => (0, s, 0, 2)
  | .koid _ => (0, s, 0, 2)
  | .boolVal _ => (0, s, 0, 1)

/-- `ProcessArgs` (writer.cpp line 269): preprocess each argument in order
(name first, then value), aborting on the first error. -/
def ProcessArgs (hash : List Nat → Nat) (e : Nat → Int) :
    List RecordArgument → WState → Int × WState × List ProcessedArg
  | [], s => (0, s, [])
  | a :: as, s =>
    let (r1, s1, nref, nsize) := processName hash e s a.name
    if r1 ≠ 0 then (r1, s1, [])
    else
      let (r2, s2, vref, hv) := processValue hash e s1 a.value
      if r2 ≠ 0 then (r2, s2, [])
      else
        let (r3, s3, pas) := ProcessArgs hash e as s2
        if r3 ≠ 0 then (r3, s3, [])
        else (0, s3, ⟨nref, nsize, vref, hv⟩ :: pas)

/-- The argument header word written by `WriteArg` (writer.cpp line 355),
case by case: type tag [0..3], total argument size [4..15], name reference
[16..31], and the per-type value bits of [32..63]. -/
def argHeaderWord (arg : RecordArgument) (pa : ProcessedArg) : Nat :=
  let sizeInWords := pa.nameSizeInWords + pa.headerAndValueSizeInWords
  let base := fieldMake 4 15 sizeInWords + fieldMake 16 31 pa.nameStringRef
  match arg.value with
  | .null => fieldMake 0 3 0 + base
  | .int32 v => fieldMake 0 3 1 + base + fieldMake 32 63 (bits32 v)
  | .uint32 v => fieldMake 0 3 2 + base + fieldMake 32 63 v
  | .int64 _ => fieldMake 0 3 3 + base
  | .uint64 _ => fieldMake 0 3 4 + base
  | .double _ => fieldMake 0 3 5 + base
  | .strVal _ _ _ => fieldMake 0 3 6 + base + fieldMake 32 47 pa.valueStringRef
  | .pointer _ => fieldMake 0 3 7 + base
  | .koid _ => fieldMake 0 3 8 + base
  | .boolVal b => fieldMake 0 3 9 + base + fieldMake 32 32 (if b then 1 else 0)

/-- The common inline-name block of every `WriteArg` case: when the name is
not interned, write the name bytes and zero-pad to the word boundary. -/
def writeInlineName (e : Nat → Int) (s : WState) (a : ArgName) (nameSizeInWords : Nat) :
    Int × WState :=
  if a.useStringTable then (0, s)
  else
    let diff := nameSizeInWords * 8 - a.name.length
    let (r, s1) := writeBytesToStream e s a.name
    if r ≠ 0 then (r, s1)
    else if 0 < diff then writeZeroPadding e s1 diff
    else (0, s1)

/-- ASCII for the lookup `"0123456789abcdef"[i]` of the hex encoder. -/
def hexDigit (i : Nat) : Nat := if i < 10 then 48 + i else 87 + i

/-- The hex-encoding loop of `WriteArg`'s String case (writer.cpp lines
575-595), modelled faithfully including its flush condition
`offset > sizeof(buffer)` (a strict comparison, so for offset = 256 the two
hex chars are written at buffer[256..257], past the 256-byte stack buffer;
the C++ behaviour there is undefined, and the model tracks the buffer as an
unbounded store so that the well-defined sink-call sizes are reproduced).
Returns (code, state, buffer, offset); the caller flushes the final
`offset` bytes. -/
def hexLoop (e : Nat → Int) : List Nat → WState → (Nat → Nat) → Nat →
    Int × WState × (Nat → Nat) × Nat
  | [], s, buf, off => (0, s, buf, off)
  | b :: rest, s, buf, off =>
    if 256 < off then
      let (r, s1) := writeBytesToStream e s ((List.range 256).map buf)
      if r ≠ 0 then (r, s1, buf, off)
      else
        let buf1 := fun j =>
          if j = 0 then hexDigit (b / 16 % 16) else if j = 1 then hexDigit (b % 16) else buf j
        hexLoop e rest s1 buf1 2
    else
      let buf1 := fun j =>
        if j = off then hexDigit (b / 16 % 16)
        else if j = off + 1 then hexDigit (b % 16) else buf j
      hexLoop e rest s buf1 (off + 2)

/-- The value block of `WriteArg`'s String case: hex-encoded values run the
buffered hex loop plus a final flush and padding; plain inline values write
the bytes plus padding; interned values write nothing. -/
def writeStringValue (e : Nat → Int) (s : WState) (bytes : List Nat)
    (useStringTable hexEncode : Bool) (pa : ProcessedArg) : Int × WState :=
  if hexEncode then
    let encodedLen := bytes.length * 2
    let diff := (pa.headerAndValueSizeInWords - 1) * 8 - encodedLen
    let (r, s1, buf, off) := hexLoop e bytes s (fun _ => 0) 0
    if r ≠ 0 then (r, s1)
    else
      let (r2, s2) := if 0 < off then writeBytesToStream e s1 ((List.range off).map buf)
                      else (0, s1)
      if r2 ≠ 0 then (r2, s2)
      else if 0 < diff then writeZeroPadding e s2 diff
      else (0, s2)
  else if !useStringTable then
    let diff := (pa.headerAndValueSizeInWords - 1) * 8 - bytes.length
    let (r, s1) := writeBytesToStream e s bytes
    if r ≠ 0 then (r, s1)
    else if 0 < diff then writeZeroPadding e s1 diff
    else (0, s1)
  else (0, s)

/-- `WriteArg` (writer.cpp line 355): emit the argument header, the inline
name block, and the per-type payload.  Returns (code, state, wordsWritten);
on success `wordsWritten` is the argument's total size in words. -/
def WriteArg (e : Nat → Int) (s : WState) (arg : RecordArgument) (pa : ProcessedArg) :
    Int × WState × Nat :=
  let sizeInWords := pa.nameSizeInWords + pa.headerAndValueSizeInWords
  let (r1, s1) := writeUInt64ToStream e s (argHeaderWord arg pa)
  if r1 ≠ 0 then (r1, s1, 0)
  else
    let (r2, s2) := writeInlineName e s1 arg.name pa.nameSizeInWords
    if r2 ≠ 0 then (r2, s2, 0)
    else
      match arg.value with
      | .null => (0, s2, sizeInWords)
      | .int32 _ => (0, s2, sizeInWords)
      | .uint32 _ => (0, s2, sizeInWords)
      | .int64 v =>
        let (r3, s3) := writeUInt64ToStream e s2 (bits64 v)
        if r3 ≠ 0 then (r3, s3, 0) else (0, s3, sizeInWords)
      | .uint64 v =>
        let (r3, s3) := writeUInt64ToStream e s2 v
        if r3 ≠ 0 then (r3, s3, 0) else (0, s3, sizeInWords)
      | .double bits =>
        let (r3, s3) := writeUInt64ToStream e s2 bits
        if r3 ≠ 0 then (r3, s3, 0) else (0, s3, sizeInWords)
      | .strVal bytes useStringTable hexEncode =>
        let (r3, s3) := writeStringValue e s2 bytes useStringTable hexEncode pa
        if r3 ≠ 0 then (r3, s3, 0) else (0, s3, sizeInWords)
      | .pointer v =>
        let (r3, s3) := writeUInt64ToStream e s2 v
        if r3 ≠ 0 then (r3, s3, 0) else (0, s3, sizeInWords)
      | .koid v =>
        let (r3, s3) := writeUInt64ToStream e s2 v
        if r3 ≠ 0 then (r3, s3, 0) else (0, s3, sizeInWords)
      | .boolVal _ => (0, s2, sizeInWords)

/-- The summation loop over preprocessed arguments
(`argumentSizeInWords += nameSizeInWords + headerAndValueSizeInWords`). -/
def argWordSum (pas : List ProcessedArg) : Nat :=
  (pas.map (fun pa => pa.nameSizeInWords + pa.headerAndValueSizeInWords)).sum

/-- The argument-emission loop shared by the record encoders: write each
argument, abort on error, and accumulate the reported word counts. -/
def writeArgs (e : Nat → Int) :
    List RecordArgument → List ProcessedArg → WState → Int × WState × Nat
  | [], _, s => (0, s, 0)
  | _ :: _, [], s => (0, s, 0)
  | a :: as, pa :: pas, s =>
    let (r, s1, w) := WriteArg e s a pa
    if r ≠ 0 then (r, s1, w)
    else
      let (r2, s2, ws) := writeArgs e as pas s1
      if r2 ≠ 0 then (r2, s2, ws) else (0, s2, w + ws)

/-- Event record header (`EventRecordFields`, writer.cpp line 847):
Type=Event(4), RecordSize [4..15], EventType [16..19], ArgumentCount
[20..23], ThreadRef [24..31], CategoryStringRef [32..47], NameStringRef
[48..63]. -/
def eventRecordHeader (eventType numArgs threadRef catRef nameRef sizeInWords : Nat) : Nat :=
  fieldMake 0 3 4 + fieldMake 4 15 sizeInWords + fieldMake 16 19 eventType +
  fieldMake 20 23 numArgs + fieldMake 24 31 threadRef + fieldMake 32 47 catRef +
  fieldMake 48 63 nameRef

/-- `WriteEventHeaderAndGenericData` (writer.cpp line 811): bound the
argument count by 15, intern category, name and thread, preprocess the
arguments, emit header and timestamp, emit the arguments, and check the
written word count against the precomputed sum. -/
def WriteEventHeaderAndGenericData (hash : List Nat → Nat) (hashTh : Nat → Nat → Nat)
    (e : Nat → Int) (s : WState) (eventType : Nat) (category name : List Nat)
    (processID threadID timestamp extraSizeInWords : Nat) (args : List RecordArgument) :
    Int × WState :=
  if 15 < args.length then (FXT_ERR_TOO_MANY_ARGS, s)
  else
    let (r1, s1, categoryIndex) := GetOrCreateStringIndex hash e s category
    if r1 ≠ 0 then (r1, s1)
    else
      let (r2, s2, nameIndex) := GetOrCreateStringIndex hash e s1 name
      if r2 ≠ 0 then (r2, s2)
      else
        let (r3, s3, threadIndex) := GetOrCreateThreadIndex hashTh e s2 processID threadID
        if r3 ≠ 0 then (r3, s3)
        else
          let (r4, s4, pas) := ProcessArgs hash e args s3
          if r4 ≠ 0 then (r4, s4)
          else
            let argumentSizeInWords := argWordSum pas
            let sizeInWords := 1 + 1 + argumentSizeInWords + extraSizeInWords
            let (r5, s5) := writeUInt64ToStream e s4
              (eventRecordHeader eventType args.length threadIndex categoryIndex nameIndex
                sizeInWords)
            if r5 ≠ 0 then (r5, s5)
            else
              let (r6, s6) := writeUInt64ToStream e s5 timestamp
              if r6 ≠ 0 then (r6, s6)
              else
                let (r7, s7, wordsWritten) := writeArgs e args pas s6
                if r7 ≠ 0 then (r7, s7)
                else if wordsWritten ≠ argumentSizeInWords then
                  (FXT_ERR_WRITE_LENGTH_MISMATCH, s7)
                else (0, s7)

/-- `AddInstantEvent` (writer.cpp line 889): EventType=Instant(0), no extra
words. -/
def AddInstantEvent (hash : List Nat → Nat) (hashTh : Nat → Nat → Nat) (e : Nat → Int)
    (s : WState) (category name : List Nat) (processID threadID timestamp : Nat)
    (args : List RecordArgument) : Int × WState :=
  WriteEventHeaderAndGenericData hash hashTh e s 0 category name processID threadID
    timestamp 0 args

/-! ### Basic emission lemmas -/

/-- Normal form for a state after `k` successful sink calls delivering `b`. -/
def appendOut (s : WState) (b : List Nat) (k : Nat) : WState :=
  { s with out := s.out ++ b, calls := s.calls + k }

theorem appendOut_appendOut (s : WState) (b1 b2 : List Nat) (k1 k2 : Nat) :
    appendOut (appendOut s b1 k1) b2 k2 = appendOut s (b1 ++ b2) (k1 + k2) := by
  simp [appendOut, List.append_assoc, Nat.add_assoc]

theorem appendOut_nil (s : WState) : appendOut s [] 0 = s := by
  simp [appendOut]

theorem sinkWrite_ok (e : Nat → Int) (s : WState) (b : List Nat) (h : e s.calls = 0) :
    sinkWrite e s b = (0, appendOut s b 1) := by
  simp [sinkWrite, appendOut, h]

theorem writeUInt64_ok (e : Nat → Int) (s : WState) (v : Nat) (h : e s.calls = 0) :
    writeUInt64ToStream e s v = (0, appendOut s (le64 v) 1) := by
  simp [writeUInt64ToStream, sinkWrite_ok, h]

theorem writeBytes_ok (e : Nat → Int) (s : WState) (b : List Nat) (h : e s.calls = 0) :
    writeBytesToStream e s b = (0, appendOut s b 1) := by
  simp [writeBytesToStream, sinkWrite_ok, h]

theorem writeZeroPadding_ok (e : Nat → Int) (he : ∀ n, e n = 0) :
    ∀ (n : Nat) (s : WState),
      writeZeroPadding e s n = (0, appendOut s (List.replicate n 0) n) := by
  intro n
  induction n with
  | zero => intro s; simp [writeZeroPadding, appendOut_nil]
  | succ n ih =>
    intro s
    rw [writeZeroPadding, sinkWrite_ok e s [0] (he s.calls)]
    simp only [ne_eq, not_true_eq_false, if_false, ih, reduceIte]
    rw [appendOut_appendOut]
    simp [List.replicate_succ, Nat.add_comm]

/-! ### Claim C8: the magic-number record -/

/-- Claim C8: `write-magic` hands the sink exactly the 8 bytes
10 00 04 46 78 54 16 00 (one sink call), in that order, and returns success
when the sink call succeeds. -/
theorem writeMagic_exact_bytes (e : Nat → Int) (s : WState) (he : e s.calls = 0) :
    WriteMagicNumberRecord e s =
      (0, appendOut s [0x10, 0x00, 0x04, 0x46, 0x78, 0x54, 0x16, 0x00] 1) := by
  rw [WriteMagicNumberRecord, writeBytes_ok e s _ he]; rfl

/-- Witness for C8 at a concrete input: a fresh writer with an
always-succeeding sink receives exactly the magic bytes. -/
theorem writeMagic_exact_bytes_witness :
    WriteMagicNumberRecord eOK mkWriter =
      (0, appendOut mkWriter [0x10, 0x00, 0x04, 0x46, 0x78, 0x54, 0x16, 0x00] 1) ∧
    (WriteMagicNumberRecord eOK mkWriter).2.out =
      [0x10, 0x00, 0x04, 0x46, 0x78, 0x54, 0x16, 0x00] :=
  ⟨writeMagic_exact_bytes eOK mkWriter rfl, by decide⟩

/-! ### Claim C6: the provider-event metadata type -/

/-- Claim C6 (code bug): the free-function variant `AddProviderEventRecord`
packs MetadataType = 3 (ProviderEvent) into header bits [16..19], but the
method variant `Writer::AddProviderEventRecord` (writer.cpp line 1545)
passes `MetadataType::ProviderSection`, so the record it emits carries
MetadataType = 2 — contradicting the claim (and the format) for that
variant.  Evaluated at providerID 1, eventType 0 on a fresh writer. -/
theorem providerEvent_metadata_type_bug :
    fieldGet 16 19 (providerEventHeader 1 0) = 3 ∧
    fieldGet 16 19 (writerMethodProviderEventHeader 1 0) = 2 ∧
    (Writer_AddProviderEventRecord eOK mkWriter 1 0).1 = 0 ∧
    (Writer_AddProviderEventRecord eOK mkWriter 1 0).2.out =
      le64 (writerMethodProviderEventHeader 1 0) := by
  refine ⟨by decide, by decide, ?_, ?_⟩ <;> decide

/-! ### Claim C7: provider-info name length -/

/-- Claim C7 (amended): `add-provider-info` accepts a provider name exactly
when its byte length is at most 248 — the check compares the 8-byte-padded
length against `kMaxNameLength` (0xff), so names of length 249..255 are
rejected with the string-too-long error even though they are shorter than
256 bytes. -/
theorem providerInfo_name_length (e : Nat → Int) (s : WState) (pid : Nat)
    (name : List Nat) (he : ∀ n, e n = 0) :
    ((AddProviderInfoRecord e s pid name).1 = 0 ↔ name.length ≤ 248) ∧
    (248 < name.length →
      (AddProviderInfoRecord e s pid name).1 = FXT_ERR_STR_TOO_LONG) := by
  by_cases h : 0xff ≤ pad8 name.length
  · have hlen : 248 < name.length := by simp only [pad8] at h; omega
    simp only [AddProviderInfoRecord, h, if_true, reduceIte]
    refine ⟨?_, fun _ => trivial⟩
    simp only [FXT_ERR_STR_TOO_LONG]
    constructor
    · intro hc; exact absurd hc (by decide)
    · omega
  · have hlen : name.length ≤ 248 := by simp only [pad8] at h; omega
    simp only [AddProviderInfoRecord, h, if_false, reduceIte,
      writeUInt64_ok e s _ (he _), writeBytes_ok e _ _ (he _)]
    by_cases hd : 0 < pad8 name.length - name.length
    · simp [hd, writeZeroPadding_ok e he, hlen]
    · simp [hd, hlen]

/-- Witness for C7: a 1-byte name is accepted on a fresh writer with an
always-succeeding sink. -/
theorem providerInfo_name_length_witness :
    (AddProviderInfoRecord eOK mkWriter 1 [65]).1 = 0 :=
  (providerInfo_name_length eOK mkWriter 1 [65] (fun _ => rfl)).1.mpr (by decide)

/-- Counterexample for C7 as frozen: a name of byte length 249 (< 256) is
rejected with the string-too-long error even with an always-succeeding
sink. -/
theorem providerInfo_name_length_cex :
    (List.replicate 249 65).length < 256 ∧
    (AddProviderInfoRecord eOK mkWriter 1 (List.replicate 249 65)).1 =
      FXT_ERR_STR_TOO_LONG := by
  constructor
  · decide
  · decide

/-! ### Intern-table state preservation -/

/-- The intern-table part of the writer state (both tables and both
next-index counters). -/
def internState (s : WState) : (List Nat × Nat) × (List Nat × Nat) :=
  ((s.stringTable, s.nextStringIndex), (s.threadTable, s.nextThreadIndex))

theorem internState_sinkWrite (e : Nat → Int) (s : WState) (b : List Nat) :
    internState (sinkWrite e s b).2 = internState s := by
  unfold sinkWrite; split <;> rfl

theorem internState_writeUInt64 (e : Nat → Int) (s : WState) (v : Nat) :
    internState (writeUInt64ToStream e s v).2 = internState s :=
  internState_sinkWrite e s _

theorem internState_writeBytes (e : Nat → Int) (s : WState) (b : List Nat) :
    internState (writeBytesToStream e s b).2 = internState s :=
  internState_sinkWrite e s b

theorem internState_writeZeroPadding (e : Nat → Int) :
    ∀ (n : Nat) (s : WState), internState (writeZeroPadding e s n).2 = internState s := by
  intro n
  induction n with
  | zero => intro s; rfl
  | succ n ih =>
    intro s
    rw [writeZeroPadding]
    rcases hw : sinkWrite e s [0] with ⟨r, s1⟩
    have h1 : internState s1 = internState s := by
      have := internState_sinkWrite e s [0]; rw [hw] at this; exact this
    by_cases hr : r ≠ 0
    · simp [hw, hr, h1]
    · simp only [hw, hr, if_false, reduceIte]
      rw [ih s1, h1]

theorem internState_AddStringRecord (e : Nat → Int) (s : WState) (idx : Nat)
    (str : List Nat) : internState (AddStringRecord e s idx str).2 = internState s := by
  unfold AddStringRecord
  by_cases h : (0x7fff : Nat) ≤ pad8 str.length
  · simp [h]
  · simp only [h, if_false, reduceIte]
    rcases h1 : writeUInt64ToStream e s
        (stringRecordHeader idx str.length (1 + pad8 str.length / 8)) with ⟨r1, s1⟩
    have e1 : internState s1 = internState s := by
      have := internState_writeUInt64 e s
        (stringRecordHeader idx str.length (1 + pad8 str.length / 8))
      rw [h1] at this; exact this
    rcases h2 : writeBytesToStream e s1 str with ⟨r2, s2⟩
    have e2 : internState s2 = internState s1 := by
      have := internState_writeBytes e s1 str; rw [h2] at this; exact this
    simp only [h1, h2]
    by_cases hr1 : r1 ≠ 0
    · simp [hr1, e1]
    · simp only [hr1, if_false, reduceIte]
      by_cases hr2 : r2 ≠ 0
      · simp [hr2, e2, e1]
      · simp only [hr2, if_false, reduceIte]
        by_cases hd : 0 < pad8 str.length - str.length
        · simp only [hd, if_true, reduceIte]
          rw [internState_writeZeroPadding, e2, e1]
        · simp [hd, e2, e1]

theorem internState_AddThreadRecord (e : Nat → Int) (s : WState)
    (idx pid tid : Nat) : internState (AddThreadRecord e s idx pid tid).2 = internState s := by
  unfold AddThreadRecord
  rcases h1 : writeUInt64ToStream e s (threadRecordHeader idx) with ⟨r1, s1⟩
  have e1 : internState s1 = internState s := by
    have := internState_writeUInt64 e s (threadRecordHeader idx); rw [h1] at this; exact this
  rcases h2 : writeUInt64ToStream e s1 pid with ⟨r2, s2⟩
  have e2 : internState s2 = internState s1 := by
    have := internState_writeUInt64 e s1 pid; rw [h2] at this; exact this
  simp only [h1, h2]
  by_cases hr1 : r1 ≠ 0
  · simp [hr1, e1]
  · simp only [hr1, if_false, reduceIte]
    by_cases hr2 : r2 ≠ 0
    · simp [hr2, e2, e1]
    · simp only [hr2, if_false, reduceIte]
      rw [internState_writeUInt64, e2, e1]

/-! ### Claim C9: failed interning leaves the tables unchanged -/

/-- Claim C9: whenever `get-or-intern-string` or `get-or-intern-thread`
returns a nonzero code (in particular when the sink fails while the binding
record is being emitted), the intern-table state is unchanged: the string
(resp. thread) table and its next-index counter are exactly as before the
call. -/
theorem intern_failure_preserves_tables (hash : List Nat → Nat)
    (hashTh : Nat → Nat → Nat) (e : Nat → Int) (s : WState) (str : List Nat)
    (pid tid : Nat) :
    ((GetOrCreateStringIndex hash e s str).1 ≠ 0 →
      (GetOrCreateStringIndex hash e s str).2.1.stringTable = s.stringTable ∧
      (GetOrCreateStringIndex hash e s str).2.1.nextStringIndex = s.nextStringIndex) ∧
    ((GetOrCreateThreadIndex hashTh e s pid tid).1 ≠ 0 →
      (GetOrCreateThreadIndex hashTh e s pid tid).2.1.threadTable = s.threadTable ∧
      (GetOrCreateThreadIndex hashTh e s pid tid).2.1.nextThreadIndex = s.nextThreadIndex) := by
  constructor
  · intro hfail
    unfold GetOrCreateStringIndex at *
    rcases hp : probe (hash str) (s.stringTable.take (min s.nextStringIndex 512)) with _ | i
    · simp only [hp] at hfail ⊢
      rcases ha : AddStringRecord e s (s.nextStringIndex % 512 + 1) str with ⟨r, s1⟩
      have ea : internState s1 = internState s := by
        have := internState_AddStringRecord e s (s.nextStringIndex % 512 + 1) str
        rw [ha] at this; exact this
      simp only [ha] at hfail ⊢
      by_cases hr : r ≠ 0
      · rw [if_pos hr]
        have h1 := congrArg (fun p => p.1.1) ea
        have h2 := congrArg (fun p => p.1.2) ea
        exact ⟨h1, h2⟩
      · simp [hr] at hfail
    · simp [hp] at hfail
  · intro hfail
    unfold GetOrCreateThreadIndex at *
    rcases hp : probe (hashTh pid tid) (s.threadTable.take (min s.nextThreadIndex 128))
      with _ | i
    · simp only [hp] at hfail ⊢
      rcases ha : AddThreadRecord e s (s.nextThreadIndex % 128 + 1) pid tid with ⟨r, s1⟩
      have ea : internState s1 = internState s := by
        have := internState_AddThreadRecord e s (s.nextThreadIndex % 128 + 1) pid tid
        rw [ha] at this; exact this
      simp only [ha] at hfail ⊢
      by_cases hr : r ≠ 0
      · rw [if_pos hr]
        have h1 := congrArg (fun p => p.2.1) ea
        have h2 := congrArg (fun p => p.2.2) ea
        exact ⟨h1, h2⟩
      · simp [hr] at hfail
    · simp [hp] at hfail

/-- Witness for C9: with a sink that always fails with code 7, interning a
fresh string on a fresh writer fails and both intern tables are untouched. -/
theorem intern_failure_preserves_tables_witness :
    (GetOrCreateStringIndex (fun _ => 0) (fun _ => 7) mkWriter [97]).2.1.stringTable =
        mkWriter.stringTable ∧
    (GetOrCreateStringIndex (fun _ => 0) (fun _ => 7) mkWriter [97]).2.1.nextStringIndex =
        mkWriter.nextStringIndex ∧
    (GetOrCreateThreadIndex (fun _ _ => 0) (fun _ => 7) mkWriter 3 45).2.1.threadTable =
        mkWriter.threadTable ∧
    (GetOrCreateThreadIndex (fun _ _ => 0) (fun _ => 7) mkWriter 3 45).2.1.nextThreadIndex =
        mkWriter.nextThreadIndex := by
  have h := intern_failure_preserves_tables (fun _ => 0) (fun _ _ => 0) (fun _ => 7)
    mkWriter [97] 3 45
  have h1 := h.1 (by decide)
  have h2 := h.2 (by decide)
  exact ⟨h1.1, h1.2, h2.1, h2.2⟩

/-! ### String-record emission -/

/-- The byte block a successful `AddStringRecord` hands to the sink:
header word, string bytes, zero padding to the word boundary. -/
def stringRecordBytes (idx : Nat) (str : List Nat) : List Nat :=
  le64 (stringRecordHeader idx str.length (1 + pad8 str.length / 8)) ++ str ++
  List.replicate (pad8 str.length - str.length) 0

theorem AddStringRecord_ok (e : Nat → Int) (he : ∀ n, e n = 0) (s : WState)
    (idx : Nat) (str : List Nat) (hlen : pad8 str.length < 0x7fff) :
    AddStringRecord e s idx str =
      (0, appendOut s (stringRecordBytes idx str) (2 + (pad8 str.length - str.length))) := by
  have hnot : ¬ ((0x7fff : Nat) ≤ pad8 str.length) := by omega
  simp only [AddStringRecord, hnot, if_false, reduceIte,
    writeUInt64_ok e _ _ (he _), writeBytes_ok e _ _ (he _)]
  by_cases hd : 0 < pad8 str.length - str.length
  · simp only [hd, if_true, reduceIte, writeZeroPadding_ok e he,
      appendOut_appendOut, ne_eq, not_true_eq_false]
    simp [stringRecordBytes, List.append_assoc]
  · have hd0 : pad8 str.length - str.length = 0 := by omega
    simp [hd0, appendOut_appendOut, stringRecordBytes]

theorem GetOrCreateStringIndex_hit (hash : List Nat → Nat) (e : Nat → Int)
    (s : WState) (str : List Nat) (i : Nat)
    (hp : probe (hash str) (s.stringTable.take (min s.nextStringIndex 512)) = some i) :
    GetOrCreateStringIndex hash e s str = (0, s, i + 1) := by
  simp [GetOrCreateStringIndex, hp]

theorem GetOrCreateStringIndex_miss (hash : List Nat → Nat) (e : Nat → Int)
    (he : ∀ n, e n = 0) (s : WState) (str : List Nat)
    (hp : probe (hash str) (s.stringTable.take (min s.nextStringIndex 512)) = none)
    (hlen : pad8 str.length < 0x7fff) :
    GetOrCreateStringIndex hash e s str =
      (0,
       { stringTable := s.stringTable.set (s.nextStringIndex % 512) (hash str)
         nextStringIndex := (s.nextStringIndex + 1) % 65536
         threadTable := s.threadTable
         nextThreadIndex := s.nextThreadIndex
         out := s.out ++ stringRecordBytes (s.nextStringIndex % 512 + 1) str
         calls := s.calls + (2 + (pad8 str.length - str.length)) },
       s.nextStringIndex % 512 + 1) := by
  simp [GetOrCreateStringIndex, hp,
    AddStringRecord_ok e he s (s.nextStringIndex % 512 + 1) str hlen, appendOut]

/-- On a too-long miss, `AddStringRecord` rejects before its first sink call,
so `GetOrCreateStringIndex` returns the error with the state — in particular
the byte stream — exactly as it was. -/
theorem getOrCreateString_too_long (hash : List Nat → Nat) (e : Nat → Int)
    (s : WState) (str : List Nat)
    (hp : probe (hash str) (s.stringTable.take (min s.nextStringIndex 512)) = none)
    (hlen : (0x7fff : Nat) ≤ pad8 str.length) :
    GetOrCreateStringIndex hash e s str = (FXT_ERR_STR_TOO_LONG, s, 0) := by
  have ha : AddStringRecord e s (s.nextStringIndex % 512 + 1) str =
      (FXT_ERR_STR_TOO_LONG, s) := by
    simp [AddStringRecord, hlen]
  simp [GetOrCreateStringIndex, hp, ha, FXT_ERR_STR_TOO_LONG]

/-! ### Claim C5: the get-or-intern-string length boundary -/

/-- Claim C5 (amended): `get-or-intern-string` accepts any content of length
at most 0x7FF8 (succeeding whenever the sink succeeds), and rejects a content
that is not already interned exactly when its length exceeds 0x7FF8 — the
check compares the 8-byte-padded length against 0x7FFF, so the boundary sits
at 0x7FF8, not at 0x7FFE as the spec states.  The rejection returns the
string-too-long error with the writer state unchanged, so in particular no
String record (no byte at all) is emitted and no handle is assigned. -/
theorem string_intern_length_bound (hash : List Nat → Nat) (e : Nat → Int)
    (s : WState) (str : List Nat) (he : ∀ n, e n = 0) :
    (str.length ≤ 0x7ff8 → (GetOrCreateStringIndex hash e s str).1 = 0) ∧
    (0x7ff8 < str.length →
      probe (hash str) (s.stringTable.take (min s.nextStringIndex 512)) = none →
      GetOrCreateStringIndex hash e s str = (FXT_ERR_STR_TOO_LONG, s, 0)) := by
  constructor
  · intro hle
    rcases hp : probe (hash str) (s.stringTable.take (min s.nextStringIndex 512)) with _ | i
    · have hlen : pad8 str.length < 0x7fff := by simp only [pad8]; omega
      rw [GetOrCreateStringIndex_miss hash e he s str hp hlen]
    · rw [GetOrCreateStringIndex_hit hash e s str i hp]
  · intro hgt hp
    exact getOrCreateString_too_long hash e s str hp (by simp only [pad8]; omega)

/-- Witness for C5 (amended): a 1-byte string is accepted on a fresh writer,
and a string of length 0x7FF9 with no prior binding is rejected with the
fresh writer state returned untouched (no bytes emitted). -/
theorem string_intern_length_bound_witness :
    (GetOrCreateStringIndex (fun _ => 0) eOK mkWriter [97]).1 = 0 ∧
    GetOrCreateStringIndex (fun _ => 0) eOK mkWriter (List.replicate 32761 97) =
      (FXT_ERR_STR_TOO_LONG, mkWriter, 0) := by
  constructor
  · exact (string_intern_length_bound (fun _ => 0) eOK mkWriter [97] (fun _ => rfl)).1
      (by decide)
  · exact (string_intern_length_bound (fun _ => 0) eOK mkWriter
      (List.replicate 32761 97) (fun _ => rfl)).2
      (by simp only [List.length_replicate]; norm_num) (by decide)

/-- Counterexample for C5 as frozen: the claim says every length up to
0x7FFE succeeds when the sink succeeds, but length 0x7FF9 = 32761 (≤ 0x7FFE)
fails with the string-too-long error on a fresh writer. -/
theorem string_intern_length_bound_cex :
    (List.replicate 32761 97).length ≤ 0x7ffe ∧
    (GetOrCreateStringIndex (fun _ => 0) eOK mkWriter (List.replicate 32761 97)).1 =
      FXT_ERR_STR_TOO_LONG := by
  constructor
  · simp only [List.length_replicate]; norm_num
  · rw [getOrCreateString_too_long (fun _ => 0) eOK mkWriter (List.replicate 32761 97)
      (by decide) (by rw [List.length_replicate]; norm_num [pad8])]

/-! ### Probe lemmas -/

theorem probe_eq_none_iff (h : Nat) : ∀ l : List Nat, probe h l = none ↔ h ∉ l := by
  intro l
  induction l with
  | nil => simp [probe]
  | cons x xs ih =>
    by_cases hx : x = h
    · simp [probe, hx]
    · simp only [probe, hx, if_false, reduceIte, Option.map_eq_none', ih, List.mem_cons]
      constructor
      · intro hn hmem
        rcases hmem with he | hm
        · exact hx he.symm
        · exact hn hm
      · intro hn hm
        exact hn (Or.inr hm)

theorem probe_snoc_self (h : Nat) : ∀ l : List Nat, h ∉ l →
    probe h (l ++ [h]) = some l.length := by
  intro l
  induction l with
  | nil => simp [probe]
  | cons x xs ih =>
    intro hmem
    have hx : ¬ (x = h) := fun hc => hmem (by simp [hc])
    have hxs : h ∉ xs := fun hc => hmem (by simp [hc])
    simp [probe, hx, ih hxs]

theorem take_set_succ (a : Nat) : ∀ (l : List Nat) (i : Nat), i < l.length →
    (l.set i a).take (i + 1) = l.take i ++ [a] := by
  intro l
  induction l with
  | nil => intro i hi; simp at hi
  | cons x xs ih =>
    intro i hi
    match i with
    | 0 => simp
    | j + 1 =>
      simp only [List.set_cons_succ, List.take_succ_cons, List.cons_append]
      rw [ih j (by simpa using hi)]

theorem probe_set_self (h : Nat) : ∀ (l : List Nat) (i : Nat), h ∉ l → i < l.length →
    probe h (l.set i h) = some i := by
  intro l
  induction l with
  | nil => intro i _ hi; simp at hi
  | cons x xs ih =>
    intro i hmem hi
    have hx : ¬ (x = h) := fun hc => hmem (by simp [hc])
    have hxs : h ∉ xs := fun hc => hmem (by simp [hc])
    match i with
    | 0 => simp [probe]
    | j + 1 =>
      simp only [List.set_cons_succ, probe, hx, if_false, reduceIte]
      rw [ih j hxs (by simpa using hi)]
      rfl

/-! ### Claim C3: idempotence of string interning -/

/-- Claim C3 (amended): for every writer state whose string table has its
fixed 512 slots and whose `uint16_t` nextStringIndex counter is below its
maximum 65535, and every string of accepted length, two successive
`get-or-intern-string` calls with the same content succeed, return the same
handle, and the second call hands no bytes to the sink.  (At
nextStringIndex = 65535 the counter wraps to 0 and the second call's probe
window is empty, so it re-interns — see the counterexample.) -/
theorem string_intern_idempotent (hash : List Nat → Nat) (s : WState) (str : List Nat)
    (hlen : s.stringTable.length = 512) (hnext : s.nextStringIndex < 65535)
    (hstr : pad8 str.length < 0x7fff) :
    (GetOrCreateStringIndex hash eOK s str).1 = 0 ∧
    (GetOrCreateStringIndex hash eOK (GetOrCreateStringIndex hash eOK s str).2.1 str).1 = 0 ∧
    (GetOrCreateStringIndex hash eOK (GetOrCreateStringIndex hash eOK s str).2.1 str).2.2 =
      (GetOrCreateStringIndex hash eOK s str).2.2 ∧
    (GetOrCreateStringIndex hash eOK (GetOrCreateStringIndex hash eOK s str).2.1 str).2.1.out =
      (GetOrCreateStringIndex hash eOK s str).2.1.out := by
  have heOK : ∀ n, eOK n = 0 := fun _ => rfl
  rcases hp : probe (hash str) (s.stringTable.take (min s.nextStringIndex 512)) with _ | i
  · -- first call misses and inserts at slot nextStringIndex % 512
    rw [GetOrCreateStringIndex_miss hash eOK heOK s str hp hstr]
    have hwrap : (s.nextStringIndex + 1) % 65536 = s.nextStringIndex + 1 :=
      Nat.mod_eq_of_lt (by omega)
    by_cases hsmall : s.nextStringIndex < 512
    · -- probe window grows by one slot, which now holds the hash
      have hidx : s.nextStringIndex % 512 = s.nextStringIndex := Nat.mod_eq_of_lt hsmall
      have hmin1 : min s.nextStringIndex 512 = s.nextStringIndex :=
        Nat.min_eq_left (by omega)
      have hnotmem : hash str ∉ s.stringTable.take s.nextStringIndex := by
        rw [← probe_eq_none_iff]; rw [hmin1] at hp; exact hp
      have hp2 : probe (hash str)
          ((s.stringTable.set (s.nextStringIndex % 512) (hash str)).take
            (min ((s.nextStringIndex + 1) % 65536) 512)) =
          some s.nextStringIndex := by
        rw [hwrap, hidx, Nat.min_eq_left (by omega),
          take_set_succ (hash str) s.stringTable s.nextStringIndex (by omega),
          probe_snoc_self (hash str) _ hnotmem, List.length_take, hlen,
          Nat.min_eq_left (by omega)]
      rw [GetOrCreateStringIndex_hit hash eOK _ str s.nextStringIndex hp2]
      exact ⟨rfl, rfl, by rw [hidx], rfl⟩
    · -- table already full: the probe window stays the whole table
      have hmin1 : min s.nextStringIndex 512 = 512 := Nat.min_eq_right (by omega)
      have htake : s.stringTable.take 512 = s.stringTable := by
        rw [← hlen]; exact List.take_length s.stringTable
      have hnotmem : hash str ∉ s.stringTable := by
        rw [← probe_eq_none_iff]; rw [hmin1, htake] at hp; exact hp
      have hidx : s.nextStringIndex % 512 < 512 := Nat.mod_lt _ (by omega)
      have hp2 : probe (hash str)
          ((s.stringTable.set (s.nextStringIndex % 512) (hash str)).take
            (min ((s.nextStringIndex + 1) % 65536) 512)) =
          some (s.nextStringIndex % 512) := by
        have hlen2 : (s.stringTable.set (s.nextStringIndex % 512) (hash str)).length = 512 := by
          rw [List.length_set, hlen]
        rw [hwrap, Nat.min_eq_right (by omega), List.take_of_length_le (le_of_eq hlen2),
          probe_set_self (hash str) s.stringTable _ hnotmem (by omega)]
      rw [GetOrCreateStringIndex_hit hash eOK _ str (s.nextStringIndex % 512) hp2]
      exact ⟨rfl, rfl, rfl, rfl⟩
  · -- first call hits: the state is unchanged, so the second call hits too
    rw [GetOrCreateStringIndex_hit hash eOK s str i hp]
    rw [GetOrCreateStringIndex_hit hash eOK s str i hp]
    exact ⟨rfl, rfl, rfl, rfl⟩

/-- Witness for C3 (amended): interning "a" twice on a fresh writer gives
handle 1 both times and the second call emits nothing. -/
theorem string_intern_idempotent_witness :
    (GetOrCreateStringIndex (fun _ => 5) eOK mkWriter [97]).1 = 0 ∧
    (GetOrCreateStringIndex (fun _ => 5) eOK
      (GetOrCreateStringIndex (fun _ => 5) eOK mkWriter [97]).2.1 [97]).1 = 0 ∧
    (GetOrCreateStringIndex (fun _ => 5) eOK
      (GetOrCreateStringIndex (fun _ => 5) eOK mkWriter [97]).2.1 [97]).2.2 =
      (GetOrCreateStringIndex (fun _ => 5) eOK mkWriter [97]).2.2 ∧
    (GetOrCreateStringIndex (fun _ => 5) eOK
      (GetOrCreateStringIndex (fun _ => 5) eOK mkWriter [97]).2.1 [97]).2.1.out =
      (GetOrCreateStringIndex (fun _ => 5) eOK mkWriter [97]).2.1.out :=
  string_intern_idempotent (fun _ => 5) mkWriter [97] (by decide) (by decide) (by decide)

/-- A reachable writer state whose `uint16_t` nextStringIndex counter sits at
its maximum value 65535 (as after 65535 distinct insertions). -/
def wrapState : WState :=
  { stringTable := List.replicate 512 0
    nextStringIndex := 65535
    threadTable := List.replicate 128 0
    nextThreadIndex := 0
    out := []
    calls := 0 }

/-- Counterexample for C3 as frozen ("for every writer state"): at
nextStringIndex = 65535 the first call returns handle 512 and wraps the
counter to 0; the second call with the same content then probes an empty
window, emits a second 16-byte String record, and returns handle 1. -/
theorem string_intern_idempotent_cex :
    (GetOrCreateStringIndex (fun _ => 1) eOK wrapState [97]).2.2 = 512 ∧
    (GetOrCreateStringIndex (fun _ => 1) eOK
      (GetOrCreateStringIndex (fun _ => 1) eOK wrapState [97]).2.1 [97]).2.2 = 1 ∧
    (GetOrCreateStringIndex (fun _ => 1) eOK
        (GetOrCreateStringIndex (fun _ => 1) eOK wrapState [97]).2.1 [97]).2.1.out.length =
      (GetOrCreateStringIndex (fun _ => 1) eOK wrapState [97]).2.1.out.length + 16 := by
  refine ⟨by decide, by decide, by decide⟩

/-! ### Claim C2: wrap-around of the string intern table -/

/-- Driver for a sequence of `get-or-intern-string` calls: process the
contents in order, aborting on the first failure, and return the code, the
final state and the handle returned by the last call. -/
def internAll (hash : List Nat → Nat) (e : Nat → Int) :
    List (List Nat) → WState → Int × WState × Nat
  | [], s => (0, s, 0)
  | c :: cs, s =>
    let (r, s1, idx) := GetOrCreateStringIndex hash e s c
    if r ≠ 0 then (r, s1, idx)
    else if cs.isEmpty then (0, s1, idx)
    else internAll hash e cs s1

/-- The concatenation of the String records that a run of distinct inserts
starting at insertion counter `k` hands to the sink: the i-th content is
bound to handle `(k + i) % 512 + 1`. -/
def internRecords : List (List Nat) → Nat → List Nat
  | [], _ => []
  | c :: cs, k => stringRecordBytes (k % 512 + 1) c ++ internRecords cs (k + 1)

theorem window_after_insert (tbl : List Nat) (k h : Nat) (H : List Nat)
    (hlen : tbl.length = 512)
    (hwin : ∀ v ∈ tbl.take (min (k % 65536) 512), v ∈ H) :
    ∀ v ∈ (tbl.set (k % 512) h).take (min ((k + 1) % 65536) 512), v ∈ H ++ [h] := by
  intro v hv
  by_cases hwrap : k % 65536 = 65535
  · have h0 : (k + 1) % 65536 = 0 := by
      rw [← Nat.mod_add_mod, hwrap]
    rw [h0] at hv
    simp at hv
  · have hk : k % 65536 < 65536 := Nat.mod_lt k (by norm_num)
    have h1 : (k + 1) % 65536 = k % 65536 + 1 := by
      rw [← Nat.mod_add_mod]
      exact Nat.mod_eq_of_lt (by omega)
    rw [h1] at hv
    by_cases hsmall : k % 65536 < 512
    · have hslot : k % 512 = k % 65536 := by
        conv_lhs => rw [← Nat.mod_mod_of_dvd k (by norm_num : (512 : Nat) ∣ 65536)]
        exact Nat.mod_eq_of_lt hsmall
      rw [hslot, Nat.min_eq_left (by omega),
        take_set_succ h tbl (k % 65536) (by omega)] at hv
      rcases List.mem_append.mp hv with hL | hR
      · exact List.mem_append_left _ (hwin v (by rw [Nat.min_eq_left (by omega)]; exact hL))
      · exact List.mem_append_right _ hR
    · have hmin : min (k % 65536 + 1) 512 = 512 := Nat.min_eq_right (by omega)
      rw [hmin, List.take_of_length_le (by simp [List.length_set, hlen])] at hv
      rcases List.mem_or_eq_of_mem_set hv with hmem | heq
      · refine List.mem_append_left _ (hwin v ?_)
        rw [Nat.min_eq_right (by omega), List.take_of_length_le (le_of_eq hlen)]
        exact hmem
      · simp [heq]

theorem internAll_spec (hash : List Nat → Nat) :
    ∀ (cs : List (List Nat)) (s : WState) (k : Nat) (H : List Nat),
    s.stringTable.length = 512 →
    s.nextStringIndex = k % 65536 →
    (∀ v ∈ s.stringTable.take (min (k % 65536) 512), v ∈ H) →
    (∀ c ∈ cs, pad8 c.length < 0x7fff) →
    (∀ c ∈ cs, hash c ∉ H) →
    (cs.map hash).Nodup →
    (internAll hash eOK cs s).1 = 0 ∧
    (internAll hash eOK cs s).2.1.out = s.out ++ internRecords cs k ∧
    (cs ≠ [] → (internAll hash eOK cs s).2.2 = (k + cs.length - 1) % 512 + 1) ∧
    (internAll hash eOK cs s).2.1.stringTable.length = 512 ∧
    (internAll hash eOK cs s).2.1.nextStringIndex = (k + cs.length) % 65536 ∧
    (∀ v ∈ (internAll hash eOK cs s).2.1.stringTable.take
        (min ((k + cs.length) % 65536) 512), v ∈ H ++ cs.map hash) := by
  intro cs
  induction cs with
  | nil =>
    intro s k H h1 h2 h3 _ _ _
    refine ⟨rfl, by simp [internAll, internRecords], fun hne => absurd rfl hne, h1,
      by simpa using h2, ?_⟩
    intro v hv
    simp only [List.map_nil, List.append_nil]
    exact h3 v (by simpa using hv)
  | cons c cs ih =>
    intro s k H h1 h2 h3 h4 h5 h6
    have hnotH : hash c ∉ H := h5 c (by simp)
    have hp : probe (hash c) (s.stringTable.take (min s.nextStringIndex 512)) = none := by
      rw [probe_eq_none_iff]
      intro hm
      rw [h2] at hm
      exact hnotH (h3 _ hm)
    have hmiss := GetOrCreateStringIndex_miss hash eOK (fun _ => rfl) s c (hp)
      (h4 c (by simp))
    have hslot : s.nextStringIndex % 512 = k % 512 := by
      rw [h2]; exact Nat.mod_mod_of_dvd k (by norm_num)
    have hnext1 : (s.nextStringIndex + 1) % 65536 = (k + 1) % 65536 := by
      rw [h2]; exact Nat.mod_add_mod k 65536 1
    rw [hslot, hnext1] at hmiss
    have hwin2 := window_after_insert s.stringTable k (hash c) H h1
      (by intro v hv; exact h3 v hv)
    rw [List.map_cons] at h6
    have hnodups := List.nodup_cons.mp h6
    rcases hcs : cs with _ | ⟨c2, cs'⟩
    · -- single content: the run ends after the head insert
      subst hcs
      have hstep : internAll hash eOK [c] s =
          (0,
           { stringTable := s.stringTable.set (k % 512) (hash c)
             nextStringIndex := (k + 1) % 65536
             threadTable := s.threadTable
             nextThreadIndex := s.nextThreadIndex
             out := s.out ++ stringRecordBytes (k % 512 + 1) c
             calls := s.calls + (2 + (pad8 c.length - c.length)) },
           k % 512 + 1) := by
        simp [internAll, hmiss]
      rw [hstep]
      refine ⟨rfl, by simp [internRecords], fun _ => by simp,
        by simp [List.length_set, h1], rfl, ?_⟩
      intro v hv
      simpa using hwin2 v (by simpa using hv)
    · -- recurse on the tail starting from the updated state
      subst hcs
      have hys := ih
        { stringTable := s.stringTable.set (k % 512) (hash c)
          nextStringIndex := (k + 1) % 65536
          threadTable := s.threadTable
          nextThreadIndex := s.nextThreadIndex
          out := s.out ++ stringRecordBytes (k % 512 + 1) c
          calls := s.calls + (2 + (pad8 c.length - c.length)) }
        (k + 1) (H ++ [hash c])
        (by simp [List.length_set, h1])
        rfl
        (by intro v hv; exact hwin2 v hv)
        (fun c' hc' => h4 c' (by simp [hc']))
        (by
          intro c' hc'
          rw [List.mem_append]
          rintro (hmem | hone)
          · exact h5 c' (by simp [hc']) hmem
          · have : hash c' ∈ (List.map hash (c2 :: cs')) :=
              List.mem_map_of_mem hash hc'
            simp only [List.mem_singleton] at hone
            rw [hone] at this
            exact hnodups.1 this)
        hnodups.2
      have hstep : internAll hash eOK (c :: c2 :: cs') s =
          internAll hash eOK (c2 :: cs')
            { stringTable := s.stringTable.set (k % 512) (hash c)
              nextStringIndex := (k + 1) % 65536
              threadTable := s.threadTable
              nextThreadIndex := s.nextThreadIndex
              out := s.out ++ stringRecordBytes (k % 512 + 1) c
              calls := s.calls + (2 + (pad8 c.length - c.length)) } := by
        conv_lhs => rw [internAll]
        rw [hmiss]
        dsimp only
        rw [if_neg (by norm_num : ¬ ((0 : Int) ≠ 0)),
          if_neg (by simp : ¬ ((c2 :: cs').isEmpty = true))]
      rw [hstep]
      refine ⟨hys.1, ?_, ?_, hys.2.2.2.1, ?_, ?_⟩
      · rw [hys.2.1]
        simp only [internRecords, List.append_assoc]
      · intro _
        rw [hys.2.2.1 (by simp)]
        simp only [List.length_cons]
        omega
      · rw [hys.2.2.2.2.1]
        simp only [List.length_cons]
        omega
      · intro v hv
        have hidx2 : k + 1 + (c2 :: cs').length = k + (c :: c2 :: cs').length := by
          simp only [List.length_cons]; omega
        have hf := hys.2.2.2.2.2
        rw [hidx2] at hf
        simpa [List.append_assoc] using hf v hv

/-- Claim C2: starting from a fresh writer, a run of `get-or-intern-string`
calls whose contents have pairwise distinct hashes (all of accepted length)
misses the table every time: every call emits exactly one String record —
the output is precisely the concatenation of the N String-record byte
blocks — and the N-th call returns handle `((N-1) mod 512) + 1`.  (This is
proved for every N ≥ 1, which subsumes the claim's N > 512; in particular
the 513th call returns handle 1 and emits a String record binding 1.) -/
theorem string_intern_wrap (hash : List Nat → Nat) (cs : List (List Nat))
    (hne : cs ≠ []) (hlen : ∀ c ∈ cs, pad8 c.length < 0x7fff)
    (hnodup : (cs.map hash).Nodup) :
    (internAll hash eOK cs mkWriter).1 = 0 ∧
    (internAll hash eOK cs mkWriter).2.1.out = internRecords cs 0 ∧
    (internAll hash eOK cs mkWriter).2.2 = (cs.length - 1) % 512 + 1 := by
  have h := internAll_spec hash cs mkWriter 0 []
    (by simp [mkWriter]) rfl (by intro v hv; simp [mkWriter] at hv) hlen
    (by intro c _; simp) hnodup
  exact ⟨h.1, by rw [h.2.1]; rfl, by simpa using h.2.2.1 hne⟩

/-- Witness for C2: three distinct one-byte contents with an injective toy
hash; the third call returns handle 3 and the stream is the three String
records in order. -/
theorem string_intern_wrap_witness :
    (internAll (fun l => l.headD 0) eOK [[0], [1], [2]] mkWriter).1 = 0 ∧
    (internAll (fun l => l.headD 0) eOK [[0], [1], [2]] mkWriter).2.1.out =
      internRecords [[0], [1], [2]] 0 ∧
    (internAll (fun l => l.headD 0) eOK [[0], [1], [2]] mkWriter).2.2 =
      (3 - 1) % 512 + 1 := by
  have h := string_intern_wrap (fun l => l.headD 0) [[0], [1], [2]]
    (by decide) (by decide) (by decide)
  exact ⟨h.1, h.2.1, h.2.2⟩

/-! ### Success lemmas for the argument encoder -/

theorem hexLoop_ok (e : Nat → Int) (he : ∀ n, e n = 0) :
    ∀ (vals : List Nat) (s : WState) (buf : Nat → Nat) (off : Nat),
      (hexLoop e vals s buf off).1 = 0 := by
  intro vals
  induction vals with
  | nil => intro s buf off; rfl
  | cons b rest ih =>
    intro s buf off
    rw [hexLoop]
    by_cases hoff : 256 < off
    · simp only [hoff, if_true, reduceIte, writeBytes_ok e _ _ (he _)]
      simp [ih]
    · simp only [hoff, if_false, reduceIte]
      exact ih _ _ _

theorem writeStringValue_ok (e : Nat → Int) (he : ∀ n, e n = 0) (s : WState)
    (bytes : List Nat) (ust hexE : Bool) (pa : ProcessedArg) :
    (writeStringValue e s bytes ust hexE pa).1 = 0 := by
  rw [writeStringValue]
  cases hexE with
  | true =>
    simp only [if_true, reduceIte]
    rcases hx : hexLoop e bytes s (fun _ => 0) 0 with ⟨r, s1, buf, off⟩
    have hr : r = 0 := by
      have := hexLoop_ok e he bytes s (fun _ => 0) 0; rw [hx] at this; exact this
    subst hr
    simp only [hx, ne_eq, not_true_eq_false, if_false, reduceIte]
    by_cases ho : 0 < off
    · simp only [ho, if_true, reduceIte, writeBytes_ok e _ _ (he _), ne_eq,
        not_true_eq_false, if_false, writeZeroPadding_ok e he]
      split <;> rfl
    · simp only [ho, if_false, reduceIte, ne_eq, not_true_eq_false,
        writeZeroPadding_ok e he]
      split <;> rfl
  | false =>
    cases ust with
    | true => rfl
    | false =>
      simp only [Bool.false_eq_true, if_false, reduceIte, Bool.not_false, if_true,
        writeBytes_ok e _ _ (he _), ne_eq, not_true_eq_false, writeZeroPadding_ok e he]
      split <;> rfl

theorem writeInlineName_ok (e : Nat → Int) (he : ∀ n, e n = 0) (s : WState)
    (a : ArgName) (nsw : Nat) : (writeInlineName e s a nsw).1 = 0 := by
  rcases a with ⟨nm, ust⟩
  rw [writeInlineName]
  cases ust with
  | true => rfl
  | false =>
    simp only [Bool.false_eq_true, if_false, reduceIte, writeBytes_ok e _ _ (he _),
      ne_eq, not_true_eq_false, writeZeroPadding_ok e he]
    split <;> rfl

theorem WriteArg_ok (e : Nat → Int) (he : ∀ n, e n = 0) (s : WState)
    (arg : RecordArgument) (pa : ProcessedArg) :
    (WriteArg e s arg pa).1 = 0 ∧
    (WriteArg e s arg pa).2.2 = pa.nameSizeInWords + pa.headerAndValueSizeInWords := by
  rw [WriteArg]
  simp only [writeUInt64_ok e _ _ (he _), ne_eq, not_true_eq_false, if_false, reduceIte]
  rcases hn : writeInlineName e (appendOut s (le64 (argHeaderWord arg pa)) 1) arg.name
      pa.nameSizeInWords with ⟨r2, s2⟩
  have hr2 : r2 = 0 := by
    have := writeInlineName_ok e he (appendOut s (le64 (argHeaderWord arg pa)) 1)
      arg.name pa.nameSizeInWords
    rw [hn] at this; exact this
  subst hr2
  simp only [hn, ne_eq, not_true_eq_false, if_false, reduceIte]
  rcases arg with ⟨nm, v⟩
  rcases v with _ | v | v | v | v | bits | ⟨bytes, ust, hexE⟩ | v | v | b
  · exact ⟨rfl, rfl⟩
  · exact ⟨rfl, rfl⟩
  · exact ⟨rfl, rfl⟩
  · simp [writeUInt64_ok e _ _ (he _)]
  · simp [writeUInt64_ok e _ _ (he _)]
  · simp [writeUInt64_ok e _ _ (he _)]
  · rcases hv : writeStringValue e s2 bytes ust hexE pa with ⟨r3, s3⟩
    have hr3 : r3 = 0 := by
      have := writeStringValue_ok e he s2 bytes ust hexE pa
      rw [hv] at this; exact this
    subst hr3
    simp [hv]
  · simp [writeUInt64_ok e _ _ (he _)]
  · simp [writeUInt64_ok e _ _ (he _)]
  · exact ⟨rfl, rfl⟩

/-- The loop in the record encoders that emits the arguments reports exactly
the precomputed word sum when the sink succeeds. -/
theorem writeArgs_ok (e : Nat → Int) (he : ∀ n, e n = 0) :
    ∀ (args : List RecordArgument) (pas : List ProcessedArg) (s : WState),
      args.length = pas.length →
      (writeArgs e args pas s).1 = 0 ∧ (writeArgs e args pas s).2.2 = argWordSum pas := by
  intro args
  induction args with
  | nil =>
    intro pas s hlen
    rcases pas with _ | ⟨pa, pas⟩
    · exact ⟨rfl, rfl⟩
    · simp at hlen
  | cons a as ih =>
    intro pas s hlen
    rcases pas with _ | ⟨pa, pas⟩
    · simp at hlen
    · rw [writeArgs]
      rcases hw : WriteArg e s a pa with ⟨r, s1, w⟩
      have hok := WriteArg_ok e he s a pa
      rw [hw] at hok
      rcases hok with ⟨hr, hwsz⟩
      simp only at hr hwsz
      subst hr
      rcases hrec : writeArgs e as pas s1 with ⟨r2, s2, ws⟩
      have hok2 := ih pas s1 (by simpa using hlen)
      rw [hrec] at hok2
      rcases hok2 with ⟨hr2, hws⟩
      simp only at hr2 hws
      subst hr2
      simp only [hw, hrec, ne_eq, not_true_eq_false, if_false, reduceIte]
      refine ⟨by trivial, ?_⟩
      simp only [hwsz, hws, argWordSum, List.map_cons, List.sum_cons]

/-! ### Error-code inventories for the preprocessing path -/

theorem getOrCreateString_codes (hash : List Nat → Nat) (e : Nat → Int)
    (he : ∀ n, e n = 0) (s : WState) (str : List Nat) :
    (GetOrCreateStringIndex hash e s str).1 = 0 ∨
    (GetOrCreateStringIndex hash e s str).1 = FXT_ERR_STR_TOO_LONG := by
  rcases hp : probe (hash str) (s.stringTable.take (min s.nextStringIndex 512)) with _ | i
  · by_cases hlen : pad8 str.length < 0x7fff
    · left
      rw [GetOrCreateStringIndex_miss hash e he s str hp hlen]
    · right
      rw [getOrCreateString_too_long hash e s str hp (by omega)]
  · left
    rw [GetOrCreateStringIndex_hit hash e s str i hp]

theorem AddThreadRecord_ok (e : Nat → Int) (he : ∀ n, e n = 0) (s : WState)
    (idx pid tid : Nat) :
    AddThreadRecord e s idx pid tid =
      (0, appendOut s (le64 (threadRecordHeader idx) ++ le64 pid ++ le64 tid) 3) := by
  simp only [AddThreadRecord, writeUInt64_ok e _ _ (he _), ne_eq, not_true_eq_false,
    if_false, reduceIte, appendOut_appendOut]

theorem getOrCreateThread_ok (hashTh : Nat → Nat → Nat) (e : Nat → Int)
    (he : ∀ n, e n = 0) (s : WState) (pid tid : Nat) :
    (GetOrCreateThreadIndex hashTh e s pid tid).1 = 0 := by
  rw [GetOrCreateThreadIndex]
  rcases hp : probe (hashTh pid tid) (s.threadTable.take (min s.nextThreadIndex 128))
    with _ | i
  · simp [hp, AddThreadRecord_ok e he]
  · simp [hp]

theorem processName_codes (hash : List Nat → Nat) (e : Nat → Int) (he : ∀ n, e n = 0)
    (s : WState) (n : ArgName) :
    (processName hash e s n).1 = 0 ∨ (processName hash e s n).1 = FXT_ERR_STR_TOO_LONG ∨
    (processName hash e s n).1 = FXT_ERR_ARG_NAME_TOO_LONG := by
  rw [processName]
  by_cases hu : n.useStringTable = true
  · simp only [hu, if_true, reduceIte]
    rcases hg : GetOrCreateStringIndex hash e s n.name with ⟨r, s1, idx⟩
    have := getOrCreateString_codes hash e he s n.name
    rw [hg] at this
    simp only at this
    rcases this with hr | hr <;> subst hr <;> simp [FXT_ERR_STR_TOO_LONG]
  · simp only [Bool.not_eq_true] at hu
    simp only [hu, Bool.false_eq_true, if_false, reduceIte]
    split <;> simp

theorem processValue_codes (hash : List Nat → Nat) (e : Nat → Int) (he : ∀ n, e n = 0)
    (s : WState) (v : ArgValue) :
    (processValue hash e s v).1 = 0 ∨ (processValue hash e s v).1 = FXT_ERR_STR_TOO_LONG ∨
    (processValue hash e s v).1 = FXT_ERR_ARG_STR_VALUE_TOO_LONG := by
  rcases v with _ | v | v | v | v | bits | ⟨bytes, ust, hexE⟩ | v | v | b <;>
    try (left; rfl)
  rw [processValue]
  by_cases hh : hexE = true
  · simp only [hh, if_true, reduceIte]
    split <;> simp
  · simp only [hh, Bool.false_eq_true, if_false, reduceIte]
    by_cases hu : ust = true
    · simp only [hu, if_true, reduceIte]
      rcases hg : GetOrCreateStringIndex hash e s bytes with ⟨r, s1, idx⟩
      have := getOrCreateString_codes hash e he s bytes
      rw [hg] at this
      simp only at this
      rcases this with hr | hr <;> subst hr <;> simp [FXT_ERR_STR_TOO_LONG]
    · simp only [Bool.not_eq_true] at hu
      simp only [hu, Bool.false_eq_true, if_false, reduceIte]
      split <;> simp

theorem ProcessArgs_codes (hash : List Nat → Nat) (e : Nat → Int) (he : ∀ n, e n = 0) :
    ∀ (args : List RecordArgument) (s : WState),
      ((ProcessArgs hash e args s).1 = 0 ∧
        (ProcessArgs hash e args s).2.2.length = args.length) ∨
      (ProcessArgs hash e args s).1 = FXT_ERR_STR_TOO_LONG ∨
      (ProcessArgs hash e args s).1 = FXT_ERR_ARG_NAME_TOO_LONG ∨
      (ProcessArgs hash e args s).1 = FXT_ERR_ARG_STR_VALUE_TOO_LONG := by
  intro args
  induction args with
  | nil => intro s; left; exact ⟨rfl, rfl⟩
  | cons a as ih =>
    intro s
    rw [ProcessArgs]
    rcases hn : processName hash e s a.name with ⟨r1, s1, nref, nsize⟩
    have hc1 := processName_codes hash e he s a.name
    rw [hn] at hc1
    simp only at hc1
    rcases hc1 with hr1 | hr1 | hr1
    · subst hr1
      simp only [hn, ne_eq, not_true_eq_false, if_false, reduceIte]
      rcases hv : processValue hash e s1 a.value with ⟨r2, s2, vref, hv2⟩
      have hc2 := processValue_codes hash e he s1 a.value
      rw [hv] at hc2
      simp only at hc2
      rcases hc2 with hr2 | hr2 | hr2
      · subst hr2
        simp only [ne_eq, not_true_eq_false, if_false, reduceIte]
        rcases hrec : ProcessArgs hash e as s2 with ⟨r3, s3, pas⟩
        have hc3 := ih s2
        rw [hrec] at hc3
        simp only at hc3
        rcases hc3 with ⟨hr3, hlen⟩ | hr3 | hr3 | hr3
        · subst hr3
          simp only [ne_eq, not_true_eq_false, if_false, reduceIte]
          left
          exact ⟨by trivial, by simp [hlen]⟩
        · subst hr3; simp [FXT_ERR_STR_TOO_LONG]
        · subst hr3; simp [FXT_ERR_ARG_NAME_TOO_LONG]
        · subst hr3; simp [FXT_ERR_ARG_STR_VALUE_TOO_LONG]
      · subst hr2; simp [FXT_ERR_STR_TOO_LONG]
      · subst hr2; simp [FXT_ERR_ARG_STR_VALUE_TOO_LONG]
    · subst hr1
      simp [hn, FXT_ERR_STR_TOO_LONG]
    · subst hr1
      simp [hn, FXT_ERR_ARG_NAME_TOO_LONG]

/-! ### Claim C10: WriteArg reports the preprocessed size, so the
WriteLengthMismatch branch is unreachable with a succeeding sink -/

/-- Claim C10: with a sink that never fails, `WriteArg` always succeeds and
reports `wordsWritten` equal to the argument's preprocessed
`nameSizeInWords + headerAndValueSizeInWords` — for every argument and every
preprocessed record, not just matched ones — and consequently the
`FXT_ERR_WRITE_LENGTH_MISMATCH` branch of the event encoder can never be
taken: `WriteEventHeaderAndGenericData` never returns that error when the
sink never fails. -/
theorem writeArg_size_and_no_mismatch :
    (∀ (e : Nat → Int) (s : WState) (arg : RecordArgument) (pa : ProcessedArg),
      (∀ n, e n = 0) →
      (WriteArg e s arg pa).1 = 0 ∧
      (WriteArg e s arg pa).2.2 = pa.nameSizeInWords + pa.headerAndValueSizeInWords) ∧
    (∀ (hash : List Nat → Nat) (hashTh : Nat → Nat → Nat) (e : Nat → Int) (s : WState)
      (etTag : Nat) (cat nm : List Nat) (pid tid ts extra : Nat)
      (args : List RecordArgument), (∀ n, e n = 0) →
      (WriteEventHeaderAndGenericData hash hashTh e s etTag cat nm pid tid ts extra
        args).1 ≠ FXT_ERR_WRITE_LENGTH_MISMATCH) := by
  constructor
  · intro e s arg pa he
    exact WriteArg_ok e he s arg pa
  · intro hash hashTh e s etTag cat nm pid tid ts extra args he
    rw [WriteEventHeaderAndGenericData]
    by_cases hn15 : 15 < args.length
    · rw [if_pos hn15]
      norm_num [FXT_ERR_TOO_MANY_ARGS, FXT_ERR_WRITE_LENGTH_MISMATCH]
    · rw [if_neg hn15]
      rcases hg1 : GetOrCreateStringIndex hash e s cat with ⟨r1, s1, catIdx⟩
      have hc1 := getOrCreateString_codes hash e he s cat
      rw [hg1] at hc1
      simp only at hc1
      rcases hc1 with hr1 | hr1 <;> subst hr1 <;> dsimp only
      · rw [if_neg (by norm_num : ¬ ((0 : Int) ≠ 0))]
        rcases hg2 : GetOrCreateStringIndex hash e s1 nm with ⟨r2, s2, nmIdx⟩
        have hc2 := getOrCreateString_codes hash e he s1 nm
        rw [hg2] at hc2
        simp only at hc2
        rcases hc2 with hr2 | hr2 <;> subst hr2 <;> dsimp only
        · rw [if_neg (by norm_num : ¬ ((0 : Int) ≠ 0))]
          rcases hg3 : GetOrCreateThreadIndex hashTh e s2 pid tid with ⟨r3, s3, thrIdx⟩
          have hc3 := getOrCreateThread_ok hashTh e he s2 pid tid
          rw [hg3] at hc3
          simp only at hc3
          subst hc3
          dsimp only
          rw [if_neg (by norm_num : ¬ ((0 : Int) ≠ 0))]
          rcases hg4 : ProcessArgs hash e args s3 with ⟨r4, s4, pas⟩
          have hc4 := ProcessArgs_codes hash e he args s3
          rw [hg4] at hc4
          simp only at hc4
          rcases hc4 with ⟨hr4, hlen4⟩ | hr4 | hr4 | hr4
          · subst hr4
            dsimp only
            rw [if_neg (by norm_num : ¬ ((0 : Int) ≠ 0))]
            rw [writeUInt64_ok e _ _ (he _)]
            dsimp only
            rw [if_neg (by norm_num : ¬ ((0 : Int) ≠ 0))]
            rw [writeUInt64_ok e _ _ (he _)]
            dsimp only
            rw [if_neg (by norm_num : ¬ ((0 : Int) ≠ 0))]
            rcases hg7 : writeArgs e args pas
                (appendOut (appendOut s4
                  (le64 (eventRecordHeader etTag args.length thrIdx catIdx nmIdx
                    (1 + 1 + argWordSum pas + extra))) 1) (le64 ts) 1)
              with ⟨r7, s7, words⟩
            have hc7 := writeArgs_ok e he args pas
              (appendOut (appendOut s4
                (le64 (eventRecordHeader etTag args.length thrIdx catIdx nmIdx
                  (1 + 1 + argWordSum pas + extra))) 1) (le64 ts) 1) hlen4.symm
            rw [hg7] at hc7
            rcases hc7 with ⟨hr7, hw7⟩
            simp only at hr7 hw7
            subst hr7
            subst hw7
            dsimp only
            rw [if_neg (by norm_num : ¬ ((0 : Int) ≠ 0)),
              if_neg (by simp : ¬ (argWordSum pas ≠ argWordSum pas))]
            norm_num [FXT_ERR_WRITE_LENGTH_MISMATCH]
          · subst hr4
            dsimp only
            rw [if_pos (by norm_num [FXT_ERR_STR_TOO_LONG] :
              (FXT_ERR_STR_TOO_LONG : Int) ≠ 0)]
            norm_num [FXT_ERR_STR_TOO_LONG, FXT_ERR_WRITE_LENGTH_MISMATCH]
          · subst hr4
            dsimp only
            rw [if_pos (by norm_num [FXT_ERR_ARG_NAME_TOO_LONG] :
              (FXT_ERR_ARG_NAME_TOO_LONG : Int) ≠ 0)]
            norm_num [FXT_ERR_ARG_NAME_TOO_LONG, FXT_ERR_WRITE_LENGTH_MISMATCH]
          · subst hr4
            dsimp only
            rw [if_pos (by norm_num [FXT_ERR_ARG_STR_VALUE_TOO_LONG] :
              (FXT_ERR_ARG_STR_VALUE_TOO_LONG : Int) ≠ 0)]
            norm_num [FXT_ERR_ARG_STR_VALUE_TOO_LONG, FXT_ERR_WRITE_LENGTH_MISMATCH]
        · rw [if_pos (by norm_num [FXT_ERR_STR_TOO_LONG] :
            (FXT_ERR_STR_TOO_LONG : Int) ≠ 0)]
          norm_num [FXT_ERR_STR_TOO_LONG, FXT_ERR_WRITE_LENGTH_MISMATCH]
      · rw [if_pos (by norm_num [FXT_ERR_STR_TOO_LONG] :
          (FXT_ERR_STR_TOO_LONG : Int) ≠ 0)]
        norm_num [FXT_ERR_STR_TOO_LONG, FXT_ERR_WRITE_LENGTH_MISMATCH]

/-- Witness for C10: a Null argument with a one-byte inline name reports 2
words, and a concrete no-argument instant event does not return
WriteLengthMismatch. -/
theorem writeArg_size_and_no_mismatch_witness :
    (WriteArg eOK mkWriter ⟨⟨[107], false⟩, ArgValue.null⟩ ⟨inlineRef 1, 1, 0, 1⟩).2.2 =
      2 ∧
    (WriteEventHeaderAndGenericData (fun l => l.headD 0) (fun p t => p + t) eOK mkWriter
      0 [99] [110] 3 45 100 0 []).1 ≠ FXT_ERR_WRITE_LENGTH_MISMATCH := by
  constructor
  · exact ((writeArg_size_and_no_mismatch.1 eOK mkWriter ⟨⟨[107], false⟩, ArgValue.null⟩
      ⟨inlineRef 1, 1, 0, 1⟩ (fun _ => rfl)).2).trans (by decide)
  · exact writeArg_size_and_no_mismatch.2 (fun l => l.headD 0) (fun p t => p + t) eOK
      mkWriter 0 [99] [110] 3 45 100 0 [] (fun _ => rfl)

/-! ### Claim C4: argument count and size-sum in event headers -/

/-- The ArgumentSize field [4..15] of every argument header encodes the
argument's total word count modulo 2^12. -/
theorem argHeaderWord_size (arg : RecordArgument) (pa : ProcessedArg) :
    fieldGet 4 15 (argHeaderWord arg pa) =
      (pa.nameSizeInWords + pa.headerAndValueSizeInWords) % 4096 := by
  rcases arg with ⟨nm, v⟩
  rcases v with _ | v | v | v | v | bits | ⟨bytes, ust, hexE⟩ | v | v | b <;>
    (simp only [argHeaderWord, fieldMake, fieldGet]; norm_num; omega)

/-- The ArgumentCount field [20..23] of the event header. -/
theorem eventRecordHeader_argCount (et n thr cat nm sz : Nat) :
    fieldGet 20 23 (eventRecordHeader et n thr cat nm sz) = n % 16 := by
  simp only [eventRecordHeader, fieldMake, fieldGet]
  norm_num
  omega

/-- The RecordSize field [4..15] of the event header. -/
theorem eventRecordHeader_size (et n thr cat nm sz : Nat) :
    fieldGet 4 15 (eventRecordHeader et n thr cat nm sz) = sz % 4096 := by
  simp only [eventRecordHeader, fieldMake, fieldGet]
  norm_num
  omega

theorem zip_encoded_size_sum :
    ∀ (args : List RecordArgument) (pas : List ProcessedArg),
      args.length = pas.length →
      (∀ pa ∈ pas, pa.nameSizeInWords + pa.headerAndValueSizeInWords ≤ 0xfff) →
      ((args.zip pas).map (fun p => fieldGet 4 15 (argHeaderWord p.1 p.2))).sum =
        argWordSum pas := by
  intro args
  induction args with
  | nil =>
    intro pas hlen _
    rcases pas with _ | ⟨pa, pas⟩
    · rfl
    · simp at hlen
  | cons a as ih =>
    intro pas hlen hb
    rcases pas with _ | ⟨pa, pas⟩
    · simp at hlen
    · simp only [List.zip_cons_cons, List.map_cons, List.sum_cons, argWordSum]
      rw [argHeaderWord_size a pa,
        Nat.mod_eq_of_lt (by have := hb pa (by simp); omega)]
      have := ih pas (by simpa using hlen) (fun q hq => hb q (by simp [hq]))
      simp only [argWordSum] at this
      rw [this]

theorem ProcessArgs_length (hash : List Nat → Nat) (e : Nat → Int) (he : ∀ n, e n = 0)
    (args : List RecordArgument) (s : WState)
    (hp0 : (ProcessArgs hash e args s).1 = 0) :
    (ProcessArgs hash e args s).2.2.length = args.length := by
  rcases ProcessArgs_codes hash e he args s with ⟨_, hl⟩ | hr | hr | hr
  · exact hl
  · rw [hp0] at hr; exact absurd hr (by norm_num [FXT_ERR_STR_TOO_LONG])
  · rw [hp0] at hr; exact absurd hr (by norm_num [FXT_ERR_ARG_NAME_TOO_LONG])
  · rw [hp0] at hr; exact absurd hr (by norm_num [FXT_ERR_ARG_STR_VALUE_TOO_LONG])

/-- Claim C4 (amended): for an event record whose argument preprocessing
succeeds, the ArgumentCount header field equals the argument count k
(k ≤ 15 unconditionally), and — provided every argument's total word count
and the record's total word count fit the 12-bit size fields — the sum of
the per-argument sizeInWords values encoded in the argument headers equals
the record's encoded sizeInWords minus 1 (header) minus 1 (timestamp) minus
the subtype's extra words.  Without the 12-bit no-overflow proviso the claim
fails (see the counterexample): the code masks oversized sizes. -/
theorem event_argcount_and_size_sum (hash : List Nat → Nat) (e : Nat → Int)
    (s : WState) (args : List RecordArgument) (etTag thr cat nm extra : Nat)
    (he : ∀ n, e n = 0) (hk : args.length ≤ 15)
    (hp0 : (ProcessArgs hash e args s).1 = 0)
    (hsizes : ∀ pa ∈ (ProcessArgs hash e args s).2.2,
      pa.nameSizeInWords + pa.headerAndValueSizeInWords ≤ 0xfff)
    (hrec : 1 + 1 + argWordSum ((ProcessArgs hash e args s).2.2) + extra ≤ 0xfff) :
    fieldGet 20 23 (eventRecordHeader etTag args.length thr cat nm
      (1 + 1 + argWordSum ((ProcessArgs hash e args s).2.2) + extra)) = args.length ∧
    ((args.zip ((ProcessArgs hash e args s).2.2)).map
        (fun p => fieldGet 4 15 (argHeaderWord p.1 p.2))).sum =
      fieldGet 4 15 (eventRecordHeader etTag args.length thr cat nm
        (1 + 1 + argWordSum ((ProcessArgs hash e args s).2.2) + extra)) - 1 - 1 - extra := by
  constructor
  · rw [eventRecordHeader_argCount]
    exact Nat.mod_eq_of_lt (by omega)
  · rw [eventRecordHeader_size, Nat.mod_eq_of_lt (by omega),
      zip_encoded_size_sum args _ (ProcessArgs_length hash e he args s hp0).symm hsizes]
    omega

/-- Witness for C4 (amended): one Null argument with a one-byte inline
name: the count field reads 1 and the encoded sizes satisfy the sum
equation. -/
theorem event_argcount_and_size_sum_witness :
    fieldGet 20 23 (eventRecordHeader 0
      ([⟨⟨[107], false⟩, ArgValue.null⟩] : List RecordArgument).length 1 1 1
      (1 + 1 + argWordSum ((ProcessArgs (fun _ => 0) eOK
        [⟨⟨[107], false⟩, ArgValue.null⟩] mkWriter).2.2) + 0)) = 1 ∧
    (([⟨⟨[107], false⟩, ArgValue.null⟩].zip ((ProcessArgs (fun _ => 0) eOK
        [⟨⟨[107], false⟩, ArgValue.null⟩] mkWriter).2.2)).map
      (fun p => fieldGet 4 15 (argHeaderWord p.1 p.2))).sum =
      fieldGet 4 15 (eventRecordHeader 0
        ([⟨⟨[107], false⟩, ArgValue.null⟩] : List RecordArgument).length 1 1 1
        (1 + 1 + argWordSum ((ProcessArgs (fun _ => 0) eOK
          [⟨⟨[107], false⟩, ArgValue.null⟩] mkWriter).2.2) + 0)) - 1 - 1 - 0 := by
  have h := event_argcount_and_size_sum (fun _ => 0) eOK mkWriter
    [⟨⟨[107], false⟩, ArgValue.null⟩] 0 1 1 1 0 (fun _ => rfl)
    (by decide) (by decide) (by decide) (by decide)
  exact ⟨h.1, h.2⟩

theorem getOrCreateString_ok (hash : List Nat → Nat) (e : Nat → Int) (s : WState)
    (str : List Nat) (he : ∀ n, e n = 0) (hlen : pad8 str.length < 0x7fff) :
    (GetOrCreateStringIndex hash e s str).1 = 0 := by
  rcases hp : probe (hash str) (s.stringTable.take (min s.nextStringIndex 512)) with _ | i
  · rw [GetOrCreateStringIndex_miss hash e he s str hp hlen]
  · rw [GetOrCreateStringIndex_hit hash e s str i hp]

/-- With a never-failing sink, the event encoder succeeds whenever the
argument count is within bounds, the category and name are of accepted
length, and the argument preprocessing succeeds (from any state). -/
theorem event_ok (hash : List Nat → Nat) (hashTh : Nat → Nat → Nat) (e : Nat → Int)
    (s : WState) (etTag : Nat) (cat nm : List Nat) (pid tid ts extra : Nat)
    (args : List RecordArgument) (he : ∀ n, e n = 0) (hk : ¬ 15 < args.length)
    (hcat : pad8 cat.length < 0x7fff) (hnm : pad8 nm.length < 0x7fff)
    (hargs : ∀ s', (ProcessArgs hash e args s').1 = 0) :
    (WriteEventHeaderAndGenericData hash hashTh e s etTag cat nm pid tid ts extra
      args).1 = 0 := by
  rw [WriteEventHeaderAndGenericData, if_neg hk]
  rcases hg1 : GetOrCreateStringIndex hash e s cat with ⟨r1, s1, catIdx⟩
  have hc1 := getOrCreateString_ok hash e s cat he hcat
  rw [hg1] at hc1
  simp only at hc1
  subst hc1
  dsimp only
  rw [if_neg (by norm_num : ¬ ((0 : Int) ≠ 0))]
  rcases hg2 : GetOrCreateStringIndex hash e s1 nm with ⟨r2, s2, nmIdx⟩
  have hc2 := getOrCreateString_ok hash e s1 nm he hnm
  rw [hg2] at hc2
  simp only at hc2
  subst hc2
  dsimp only
  rw [if_neg (by norm_num : ¬ ((0 : Int) ≠ 0))]
  rcases hg3 : GetOrCreateThreadIndex hashTh e s2 pid tid with ⟨r3, s3, thrIdx⟩
  have hc3 := getOrCreateThread_ok hashTh e he s2 pid tid
  rw [hg3] at hc3
  simp only at hc3
  subst hc3
  dsimp only
  rw [if_neg (by norm_num : ¬ ((0 : Int) ≠ 0))]
  rcases hg4 : ProcessArgs hash e args s3 with ⟨r4, s4, pas⟩
  have hc4 := hargs s3
  rw [hg4] at hc4
  simp only at hc4
  subst hc4
  have hlen4 : pas.length = args.length := by
    have := ProcessArgs_length hash e he args s3 (by rw [hg4])
    rw [hg4] at this
    exact this
  dsimp only
  rw [if_neg (by norm_num : ¬ ((0 : Int) ≠ 0))]
  rw [writeUInt64_ok e _ _ (he _)]
  dsimp only
  rw [if_neg (by norm_num : ¬ ((0 : Int) ≠ 0))]
  rw [writeUInt64_ok e _ _ (he _)]
  dsimp only
  rw [if_neg (by norm_num : ¬ ((0 : Int) ≠ 0))]
  rcases hg7 : writeArgs e args pas
      (appendOut (appendOut s4
        (le64 (eventRecordHeader etTag args.length thrIdx catIdx nmIdx
          (1 + 1 + argWordSum pas + extra))) 1) (le64 ts) 1) with ⟨r7, s7, words⟩
  have hc7 := writeArgs_ok e he args pas
    (appendOut (appendOut s4
      (le64 (eventRecordHeader etTag args.length thrIdx catIdx nmIdx
        (1 + 1 + argWordSum pas + extra))) 1) (le64 ts) 1) hlen4.symm
  rw [hg7] at hc7
  rcases hc7 with ⟨hr7, hw7⟩
  simp only at hr7 hw7
  subst hr7
  subst hw7
  dsimp only
  rw [if_neg (by norm_num : ¬ ((0 : Int) ≠ 0)),
    if_neg (by simp : ¬ (argWordSum pas ≠ argWordSum pas))]

/-- The oversized argument of the C4 counterexample: a String argument with
a 32760-byte inline name and a 32752-byte inline value, totalling
4095 + 4095 = 8190 words — beyond the 12-bit ArgumentSize field. -/
def bigArg : RecordArgument :=
  ⟨⟨List.replicate 32760 97, false⟩,
   ArgValue.strVal (List.replicate 32752 98) false false⟩

/-- Successful one-step unfolding of `ProcessArgs` on a cons, phrased over
abstract intermediate results so it can be instantiated without reducing
the argument's (possibly huge) byte lists. -/
theorem ProcessArgs_cons_ok (hash : List Nat → Nat) (e : Nat → Int)
    (a : RecordArgument) (as : List RecordArgument) (s s1 s2 s3 : WState)
    (nref nsize vref hv : Nat) (pas : List ProcessedArg)
    (h1 : processName hash e s a.name = (0, s1, nref, nsize))
    (h2 : processValue hash e s1 a.value = (0, s2, vref, hv))
    (h3 : ProcessArgs hash e as s2 = (0, s3, pas)) :
    ProcessArgs hash e (a :: as) s = (0, s3, ⟨nref, nsize, vref, hv⟩ :: pas) := by
  rw [ProcessArgs, h1]
  dsimp only
  rw [if_neg (by norm_num : ¬ ((0 : Int) ≠ 0)), h2]
  dsimp only
  rw [if_neg (by norm_num : ¬ ((0 : Int) ≠ 0)), h3]
  dsimp only
  rw [if_neg (by norm_num : ¬ ((0 : Int) ≠ 0))]

theorem ProcessArgs_nil (hash : List Nat → Nat) (e : Nat → Int) (s : WState) :
    ProcessArgs hash e [] s = (0, s, []) := by
  rw [ProcessArgs]

theorem processName_bigArg (s : WState) :
    processName (fun _ => 0) eOK s bigArg.name = (0, s, inlineRef 32760, 4095) := by
  have hnmlen : bigArg.name.name.length = 32760 := by
    rw [show bigArg.name.name = List.replicate 32760 97 from rfl, List.length_replicate]
  rw [processName,
    if_neg (show ¬ (bigArg.name.useStringTable = true) by
      rw [show bigArg.name.useStringTable = false from rfl]; simp),
    if_neg (show ¬ (MaxInlineStrLen < bigArg.name.name.length) by
      rw [hnmlen, MaxInlineStrLen]; norm_num),
    hnmlen]
  norm_num [pad8]

theorem processValue_bigArg (s' : WState) :
    processValue (fun _ => 0) eOK s' bigArg.value = (0, s', inlineRef 32752, 4095) := by
  have hvlen : (List.replicate 32752 98).length = 32752 := by
    rw [List.length_replicate]
  rw [show bigArg.value = ArgValue.strVal (List.replicate 32752 98) false false from
    rfl, processValue,
    if_neg (show ¬ ((false : Bool) = true) by simp),
    if_neg (show ¬ ((false : Bool) = true) by simp),
    if_neg (show ¬ (MaxInlineStrLen < (List.replicate 32752 98).length) by
      rw [hvlen, MaxInlineStrLen]; norm_num),
    hvlen]
  norm_num [pad8]

theorem ProcessArgs_bigArg (s : WState) :
    ProcessArgs (fun _ => 0) eOK [bigArg] s =
      (0, s, [⟨inlineRef 32760, 4095, inlineRef 32752, 4095⟩]) :=
  ProcessArgs_cons_ok (fun _ => 0) eOK bigArg [] s s s s (inlineRef 32760) 4095
    (inlineRef 32752) 4095 [] (processName_bigArg s) (processValue_bigArg s)
    (ProcessArgs_nil (fun _ => 0) eOK s)

/-- Counterexample for C4 as frozen: the 8190-word argument is accepted and
successfully emitted (k = 1 ≤ 15), but its encoded ArgumentSize reads
8190 mod 4096 = 4094 while the record's encoded sizeInWords reads
8192 mod 4096 = 0, so the claimed equation 4094 = 0 - 1 - 1 - 0 fails
(under either reading of "the record's sizeInWords": the computed size is
8192, and 4094 is not 8192 - 2 either). -/
theorem event_argcount_and_size_sum_cex :
    (ProcessArgs (fun _ => 0) eOK [bigArg] mkWriter).1 = 0 ∧
    (([bigArg].zip ((ProcessArgs (fun _ => 0) eOK [bigArg] mkWriter).2.2)).map
        (fun p => fieldGet 4 15 (argHeaderWord p.1 p.2))).sum = 4094 ∧
    fieldGet 4 15 (eventRecordHeader 0 1 1 1 1
      (1 + 1 + argWordSum ((ProcessArgs (fun _ => 0) eOK [bigArg] mkWriter).2.2) + 0)) =
      0 ∧
    1 + 1 + argWordSum ((ProcessArgs (fun _ => 0) eOK [bigArg] mkWriter).2.2) + 0 =
      8192 ∧
    (4094 : Nat) ≠ 0 - 1 - 1 - 0 ∧ (4094 : Nat) ≠ 8192 - 1 - 1 - 0 ∧
    (WriteEventHeaderAndGenericData (fun _ => 0) (fun _ _ => 0) eOK mkWriter 0 [99]
      [110] 3 45 100 0 [bigArg]).1 = 0 := by
  refine ⟨by rw [ProcessArgs_bigArg], ?_, ?_, ?_, by norm_num, by norm_num, ?_⟩
  · rw [ProcessArgs_bigArg]
    simp only [List.zip_cons_cons, List.zip_nil_right, List.map_cons, List.map_nil,
      List.sum_cons, List.sum_nil]
    rw [argHeaderWord_size]
    norm_num
  · rw [ProcessArgs_bigArg, eventRecordHeader_size]
    norm_num [argWordSum]
  · rw [ProcessArgs_bigArg]
    norm_num [argWordSum]
  · exact event_ok (fun _ => 0) (fun _ _ => 0) eOK mkWriter 0 [99] [110] 3 45 100 0
      [bigArg] (fun _ => rfl) (by norm_num) (by norm_num [pad8])
      (by norm_num [pad8]) (fun s' => by rw [ProcessArgs_bigArg])

/-- The failing input for C1: an instant event whose single argument carries a
hex-encoded 130-byte string value.  Its encoded form is 260 hex characters,
which makes the hex loop cross the 256-byte stack buffer: after 128 input
bytes the offset is 256, the strict flush condition `offset > sizeof(buffer)`
does not fire, the 129th byte's two characters land at buffer[256..257]
(out of bounds), and the next flush emits only buffer[0..255], losing them. -/
def hexArg : RecordArgument :=
  ⟨⟨[107], false⟩, ArgValue.strVal (List.replicate 130 171) false true⟩

/-- C1: refuted — the record-size invariant fails on the hex-encode path.
`AddInstantEvent` on a fresh writer with category "c", name "n" and the
single hex-encoded argument `hexArg` returns success; after the 40-byte
prefix (one String record for the interned category/name — the abstract
hash maps both to the same bucket — and one Thread record), the emitted
event record's header is a Type=Event record promising sizeInWords = 37,
i.e. 296 bytes, but the sink receives only 294 bytes for the record: the
two hex characters written past the end of the 256-byte buffer are never
handed to the sink. -/
theorem hex_arg_record_byte_count_bug :
    (AddInstantEvent (fun _ => 0) (fun _ _ => 0) eOK mkWriter [99] [110] 3 45 100
        [hexArg]).1 = 0 ∧
    (AddInstantEvent (fun _ => 0) (fun _ _ => 0) eOK mkWriter [99] [110] 3 45 100
        [hexArg]).2.out.length = 334 ∧
    ((AddInstantEvent (fun _ => 0) (fun _ _ => 0) eOK mkWriter [99] [110] 3 45 100
        [hexArg]).2.out.drop 40).length = 294 ∧
    fieldGet 0 3 (wordOfBytes (((AddInstantEvent (fun _ => 0) (fun _ _ => 0) eOK
        mkWriter [99] [110] 3 45 100 [hexArg]).2.out.drop 40).take 8)) = 4 ∧
    fieldGet 4 15 (wordOfBytes (((AddInstantEvent (fun _ => 0) (fun _ _ => 0) eOK
        mkWriter [99] [110] 3 45 100 [hexArg]).2.out.drop 40).take 8)) = 37 ∧
    (294 : Nat) ≠ 8 * 37 := by
  decide

end FxtModel
